import Mathlib

/-!
Verification of the Keplerian-orbit engine and the quadtree spatial index
of the asteroids repository.  The JavaScript sources are shallowly embedded
over the real numbers (the quadtree generically over a linear ordered
field); each definition mirrors the corresponding source function.
-/

set_option autoImplicit false

namespace Orbits

open Real

/- ## Scalar / vector math utilities

The repository imports `normalizeAngle`, `magnitude`, `cross`, `dot` from a
`utils.js` file that is not among the sources; they are modelled from the
spec (section 2: "angle normalization, 2D dot/cross/magnitude"). -/

noncomputable section

/-- Modelled from the spec: `normalizeAngle` (utils.js, missing from the
sources) normalizes an angle into `[0, 2π)`. -/
def normalizeAngle (x : ℝ) : ℝ := x - 2 * π * ⌊x / (2 * π)⌋

/-- Modelled from the spec: `magnitude` (utils.js, missing from the sources)
is the euclidean norm of a 2D vector. -/
def magnitude (x y : ℝ) : ℝ := Real.sqrt (x * x + y * y)

/-- Modelled from the spec: `cross` (utils.js, missing from the sources) is
the scalar 2D cross product `x1*y2 - y1*x2` (spec: `h = r_x v_y - r_y v_x`). -/
def cross (x1 y1 x2 y2 : ℝ) : ℝ := x1 * y2 - y1 * x2

/-- Modelled from the spec: `dot` (utils.js, missing from the sources) is
the 2D dot product. -/
def dot (x1 y1 x2 y2 : ℝ) : ℝ := x1 * x2 + y1 * y2

/-- JavaScript `Math.atan2(y, x)`, embedded as the complex argument of
`x + y i` (the principal angle in `(-π, π]`, with `atan2 0 0 = 0`). -/
def atan2 (y x : ℝ) : ℝ := Complex.arg ⟨x, y⟩

/- ## Constants (constants.js) -/

/-- Gravitational parameter μ (constants.js). -/
def MU : ℝ := 1000

/-- Distance scaling (constants.js). -/
def AU_TO_PIXELS : ℝ := 150

/-- Orbit path resolution (constants.js). -/
def ORBIT_PATH_POINTS : ℕ := 100

/-- Kepler solver iteration cap (constants.js). -/
def KEPLER_MAX_ITERATIONS : ℕ := 50

/-- Kepler solver tolerance (constants.js). -/
def KEPLER_TOLERANCE : ℝ := 1e-8

/- ## Data model -/

/-- Orbital elements `{a, e, omega, M0}` (orbital.js). -/
structure OrbitalElements where
  a : ℝ
  e : ℝ
  omega : ℝ
  M0 : ℝ

/- ## Orbit solver (orbital.js) -/

/-- Newton-Raphson loop of `solveKeplerEquation` (orbital.js lines 24-36).
The fuel argument counts the remaining iterations; the loop updates
`E ← E - ΔE` and stops early once `|ΔE| < KEPLER_TOLERANCE`. -/
def keplerLoop (M e : ℝ) : ℕ → ℝ → ℝ
  | 0, E => E
  | n + 1, E =>
    let sinE := Real.sin E
    let cosE := Real.cos E
    let f := E - e * sinE - M
    let fPrime := 1 - e * cosE
    let deltaE := f / fPrime
    let E' := E - deltaE
    if |deltaE| < KEPLER_TOLERANCE then E' else keplerLoop M e n E'

/-- Solve Kepler's equation `M = E - e sin E` (orbital.js `solveKeplerEquation`):
normalize `M` into `[0, 2π)`, start from `M` (or `π` when `e > 0.8`), then
iterate Newton-Raphson at most `KEPLER_MAX_ITERATIONS` times. -/
def solveKeplerEquation (M e : ℝ) : ℝ :=
  let M' := normalizeAngle M
  let E0 := if e > 0.8 then π else M'
  keplerLoop M' e KEPLER_MAX_ITERATIONS E0

/-- True anomaly from eccentric anomaly (orbital.js `trueAnomalyFromEccentric`). -/
def trueAnomalyFromEccentric (E e : ℝ) : ℝ :=
  let sinHalfE := Real.sin (E / 2)
  let cosHalfE := Real.cos (E / 2)
  let sqrtOnePlusE := Real.sqrt (1 + e)
  let sqrtOneMinusE := Real.sqrt (1 - e)
  2 * atan2 (sqrtOnePlusE * sinHalfE) (sqrtOneMinusE * cosHalfE)

/-- Mean anomaly at time `t` (orbital.js `meanAnomalyAtTime`). -/
def meanAnomalyAtTime (orbit : OrbitalElements) (t : ℝ) : ℝ :=
  let n := Real.sqrt (MU / orbit.a ^ 3)
  normalizeAngle (orbit.M0 + n * t)

/-- Orbital period (orbital.js `orbitalPeriod`). -/
def orbitalPeriod (a : ℝ) : ℝ := 2 * π * Real.sqrt (a ^ 3 / MU)

/-- Position at a given true anomaly (orbital.js `getPositionFromTrueAnomaly`). -/
def getPositionFromTrueAnomaly (orbit : OrbitalElements) (theta : ℝ) : ℝ × ℝ :=
  let r := orbit.a * (1 - orbit.e * orbit.e) / (1 + orbit.e * Real.cos theta)
  let xOrbital := r * Real.cos theta
  let yOrbital := r * Real.sin theta
  let cosOmega := Real.cos orbit.omega
  let sinOmega := Real.sin orbit.omega
  (xOrbital * cosOmega - yOrbital * sinOmega,
   xOrbital * sinOmega + yOrbital * cosOmega)

/-- Position at time `t` (orbital.js `getPositionAtTime`). -/
def getPositionAtTime (orbit : OrbitalElements) (t : ℝ) : ℝ × ℝ :=
  let M := meanAnomalyAtTime orbit t
  let E := solveKeplerEquation M orbit.e
  let theta := trueAnomalyFromEccentric E orbit.e
  getPositionFromTrueAnomaly orbit theta

/-- Velocity block of `getVelocityAtTime` (orbital.js lines 129-154) as a
function of the true anomaly; `getVelocityAtTime` applies it to the anomaly
recomputed from `t`. -/
def velocityFromTrueAnomaly (orbit : OrbitalElements) (theta : ℝ) : ℝ × ℝ :=
  let a := orbit.a
  let e := orbit.e
  let omega := orbit.omega
  let r := a * (1 - e * e) / (1 + e * Real.cos theta)
  let vMag := Real.sqrt (MU * (2 / r - 1 / a))
  let p := a * (1 - e * e)
  let h := Real.sqrt (MU * p)
  let vr := MU / h * e * Real.sin theta
  let vTheta := MU / h * (1 + e * Real.cos theta)
  let vxOrbital := vr * Real.cos theta - vTheta * Real.sin theta
  let vyOrbital := vr * Real.sin theta + vTheta * Real.cos theta
  let cosOmega := Real.cos omega
  let sinOmega := Real.sin omega
  (vxOrbital * cosOmega - vyOrbital * sinOmega,
   vxOrbital * sinOmega + vyOrbital * cosOmega)

/-- Velocity at time `t` (orbital.js `getVelocityAtTime`). -/
def getVelocityAtTime (orbit : OrbitalElements) (t : ℝ) : ℝ × ℝ :=
  let M := meanAnomalyAtTime orbit t
  let E := solveKeplerEquation M orbit.e
  let theta := trueAnomalyFromEccentric E orbit.e
  velocityFromTrueAnomaly orbit theta

/-- Specific orbital energy `ε = |v|²/2 - μ/|r|` as computed in
`computeOrbitFromStateVectors` (orbital.js line 176). -/
def specificOrbitalEnergy (r v : ℝ × ℝ) : ℝ :=
  magnitude v.1 v.2 * magnitude v.1 v.2 / 2 - MU / magnitude r.1 r.2

/-- State vectors to orbital elements (orbital.js `computeOrbitFromStateVectors`);
returns `none` (the JS `null`) on a parabolic or hyperbolic trajectory. -/
def computeOrbitFromStateVectors (r v : ℝ × ℝ) : Option OrbitalElements :=
  let rx := r.1
  let ry := r.2
  let vx := v.1
  let vy := v.2
  let rMag := magnitude rx ry
  let vMag := magnitude vx vy
  let h := cross rx ry vx vy
  let energy := vMag * vMag / 2 - MU / rMag
  if energy ≥ 0 then
    none
  else
    let a := -MU / (2 * energy)
    let rdotv := dot rx ry vx vy
    let term1 := vMag * vMag - MU / rMag
    let ex := (term1 * rx - rdotv * vx) / MU
    let ey := (term1 * ry - rdotv * vy) / MU
    let e := magnitude ex ey
    let omega0 := atan2 ey ex
    let omega := if omega0 < 0 then omega0 + 2 * π else omega0
    let theta :=
      if e < 1e-10 then
        atan2 ry rx - omega
      else
        let cosTheta := dot ex ey rx ry / (e * rMag)
        let theta0 := Real.arccos (max (-1) (min 1 cosTheta))
        if rdotv < 0 then 2 * π - theta0 else theta0
    let tanHalfTheta := Real.tan (theta / 2)
    let sqrtFac := Real.sqrt ((1 - e) / (1 + e))
    let E := 2 * Real.arctan (sqrtFac * tanHalfTheta)
    let M := E - e * Real.sin E
    let M0 := normalizeAngle M
    some { a := a, e := e, omega := omega, M0 := M0 }

/-- Pre-computed orbit path (orbital.js `generateOrbitPath`): positions at
`numPoints + 1` evenly spaced true anomalies spanning `[0, 2π]`. -/
def generateOrbitPath (orbit : OrbitalElements) (numPoints : ℕ := ORBIT_PATH_POINTS) :
    List (ℝ × ℝ) :=
  (List.range (numPoints + 1)).map fun (i : ℕ) =>
    getPositionFromTrueAnomaly orbit ((i : ℝ) / (numPoints : ℝ) * (2 * π))

/- ## Body entity (asteroid.js) -/

/-- Mutable state of an asteroid (asteroid.js `Asteroid`): owned orbital
elements, cached orbit path and period, current kinematic state, and visual
attributes. -/
structure Asteroid where
  id : ℕ
  orbit : OrbitalElements
  radius : ℝ
  color : ℕ
  orbitPath : List (ℝ × ℝ)
  x : ℝ
  y : ℝ
  vx : ℝ
  vy : ℝ
  period : ℝ

namespace Asteroid

/-- Constructor (asteroid.js lines 22-51).  The randomly sampled quantities
(`randomRange`, `randomPowerLaw`, `generateAsteroidColor` live in the missing
utils.js) are passed in as explicit arguments `aAU`, `e`, `omega`, `M0`,
`radius`, `color`; the constructor then builds the orbit, pre-computes the
path and the period, and zeroes the kinematic state. -/
def create (id : ℕ) (aAU e omega M0 radius : ℝ) (color : ℕ) : Asteroid :=
  let orbit : OrbitalElements :=
    { a := aAU * AU_TO_PIXELS, e := e, omega := omega, M0 := M0 }
  { id := id
    orbit := orbit
    radius := radius
    color := color
    orbitPath := generateOrbitPath orbit
    x := 0, y := 0, vx := 0, vy := 0
    period := orbitalPeriod orbit.a }

/-- Named constructor (asteroid.js `Asteroid.fromOrbit`): builds a random
asteroid, then overwrites orbit, radius and color and regenerates the cached
path and period.  The random samples of the inner `new Asteroid(id)` call are
again explicit arguments. -/
def fromOrbit (id : ℕ) (aAU e0 omega0 M00 radius0 : ℝ) (color0 : ℕ)
    (orbit : OrbitalElements) (radius : ℝ) (color : ℕ) : Asteroid :=
  let asteroid := create id aAU e0 omega0 M00 radius0 color0
  { asteroid with
    orbit := orbit
    radius := radius
    color := color
    orbitPath := generateOrbitPath orbit
    period := orbitalPeriod orbit.a }

/-- Per-frame update (asteroid.js `Asteroid.update`): recompute position and
velocity from the owned orbit at time `t`. -/
def update (ast : Asteroid) (t : ℝ) : Asteroid :=
  let pos := getPositionAtTime ast.orbit t
  let vel := getVelocityAtTime ast.orbit t
  { ast with x := pos.1, y := pos.2, vx := vel.1, vy := vel.2 }

/-- Delta-v application (asteroid.js `Asteroid.applyDeltaV`): add the delta-v
to the current velocity and recompute the orbit from the state vectors; on
success replace orbit, path, period and velocity, on failure change nothing.
Returns the updated asteroid and the JS boolean `newOrbit !== null`.
The time argument `t` is accepted, and unused, exactly as in the source. -/
def applyDeltaV (ast : Asteroid) (dvx dvy _t : ℝ) : Asteroid × Bool :=
  let newVx := ast.vx + dvx
  let newVy := ast.vy + dvy
  match computeOrbitFromStateVectors (ast.x, ast.y) (newVx, newVy) with
  | some newOrbit =>
    ({ ast with
        orbit := newOrbit
        orbitPath := generateOrbitPath newOrbit
        period := orbitalPeriod newOrbit.a
        vx := newVx
        vy := newVy }, true)
  | none => (ast, false)

/-- Direct orbit replacement (asteroid.js `Asteroid.setOrbit`): always
regenerates the cached path and period. -/
def setOrbit (ast : Asteroid) (orbit : OrbitalElements) : Asteroid :=
  { ast with
    orbit := orbit
    orbitPath := generateOrbitPath orbit
    period := orbitalPeriod orbit.a }

/-- Hit test (asteroid.js `Asteroid.containsPoint`). -/
def containsPoint (ast : Asteroid) (wx wy : ℝ) (tolerance : ℝ := 0) : Prop :=
  let dx := wx - ast.x
  let dy := wy - ast.y
  let hitRadius := ast.radius + tolerance
  dx * dx + dy * dy ≤ hitRadius * hitRadius

end Asteroid

/-- One externally triggered operation on a body: the operations of spec
section 4.2 that can touch the orbit or the kinematic state. -/
inductive BodyOp where
  | update (t : ℝ)
  | applyDeltaV (dvx dvy t : ℝ)
  | setOrbit (orbit : OrbitalElements)

/-- Apply one operation to an asteroid (the boolean result of `applyDeltaV`
is dropped, as by callers that ignore it). -/
def BodyOp.apply (ast : Asteroid) : BodyOp → Asteroid
  | .update t => ast.update t
  | .applyDeltaV dvx dvy t => (ast.applyDeltaV dvx dvy t).1
  | .setOrbit orbit => ast.setOrbit orbit

/-- Run a sequence of body operations. -/
def runOps (ast : Asteroid) : List BodyOp → Asteroid
  | [] => ast
  | op :: ops => runOps (op.apply ast) ops

/-- Cache-consistency invariant of spec section 3: the cached path and period
always agree with the current orbit. -/
def cacheConsistent (ast : Asteroid) : Prop :=
  ast.orbitPath = generateOrbitPath ast.orbit ∧
  ast.period = orbitalPeriod ast.orbit.a

end

/- ## Spatial index (selection.js)

The quadtree only compares, adds, halves and multiplies coordinates, so it
is embedded generically over a linear ordered field; the theorems
instantiate it at `ℝ` (the JS numbers) and the witnesses at `ℚ`, where it
is executable. -/

/-- Axis-aligned bounds `{x, y, width, height}` (selection.js). -/
structure Rect (α : Type) where
  x : α
  y : α
  width : α
  height : α
  deriving DecidableEq

/-- A point-like object held by the quadtree: anything exposing a position
and a hit radius (selection.js stores asteroids; only `x`, `y`, `radius`
are read). -/
structure PointObj (α : Type) where
  x : α
  y : α
  radius : α
  deriving DecidableEq

/-- Quadtree node (selection.js `QuadTree`): either undivided (`divided ===
false`, no children) or divided into four quadrant children; both keep the
`objects` list (cleared on subdivision). -/
inductive QuadTree (α : Type) where
  | leaf (bounds : Rect α) (capacity : ℕ) (objects : List (PointObj α))
  | node (bounds : Rect α) (capacity : ℕ) (objects : List (PointObj α))
      (northeast northwest southeast southwest : QuadTree α)
  deriving DecidableEq

namespace QuadTree

variable {α : Type} [LinearOrderedField α]

/-- Bounds of a node. -/
def bounds : QuadTree α → Rect α
  | .leaf b _ _ => b
  | .node b _ _ _ _ _ _ => b

/-- Objects held directly by a node. -/
def objects : QuadTree α → List (PointObj α)
  | .leaf _ _ objs => objs
  | .node _ _ objs _ _ _ _ => objs

/-- Point-in-bounds test (selection.js `QuadTree.containsPoint`): half-open
on the right and bottom. -/
def containsPoint (b : Rect α) (x y : α) : Prop :=
  x ≥ b.x ∧ x < b.x + b.width ∧ y ≥ b.y ∧ y < b.y + b.height

instance (b : Rect α) (x y : α) : Decidable (containsPoint b x y) :=
  decidable_of_iff (x ≥ b.x ∧ x < b.x + b.width ∧ y ≥ b.y ∧ y < b.y + b.height) Iff.rfl

/-- Rectangle-circle intersection via the clamped closest point
(selection.js `QuadTree.intersectsCircle`). -/
def intersectsCircle (b : Rect α) (cx cy radius : α) : Prop :=
  let closestX := max b.x (min cx (b.x + b.width))
  let closestY := max b.y (min cy (b.y + b.height))
  let dx := cx - closestX
  let dy := cy - closestY
  dx * dx + dy * dy ≤ radius * radius

instance (b : Rect α) (cx cy radius : α) : Decidable (intersectsCircle b cx cy radius) :=
  decidable_of_iff
    ((cx - max b.x (min cx (b.x + b.width))) * (cx - max b.x (min cx (b.x + b.width))) +
      (cy - max b.y (min cy (b.y + b.height))) * (cy - max b.y (min cy (b.y + b.height))) ≤
      radius * radius) Iff.rfl

/-- The four child quadrants built by `subdivide` (selection.js lines 47-59),
in source field order northeast, northwest, southeast, southwest. -/
def subdivided (b : Rect α) (capacity : ℕ) :
    QuadTree α × QuadTree α × QuadTree α × QuadTree α :=
  let x := b.x
  let y := b.y
  let w := b.width / 2
  let h := b.height / 2
  (.leaf ⟨x + w, y, w, h⟩ capacity [],
   .leaf ⟨x, y, w, h⟩ capacity [],
   .leaf ⟨x + w, y + h, w, h⟩ capacity [],
   .leaf ⟨x, y + h, w, h⟩ capacity [])

/-- The short-circuit chain `ne.insert(obj) || nw.insert(obj) ||
se.insert(obj) || sw.insert(obj)` (selection.js lines 80-83 and 88-91),
abstracted over the single-node insert `ins`: each call rewrites its child,
stopping at the first success. -/
def insertChain (ins : QuadTree α → PointObj α → Option (QuadTree α × Bool))
    (quads : QuadTree α × QuadTree α × QuadTree α × QuadTree α) (obj : PointObj α) :
    Option ((QuadTree α × QuadTree α × QuadTree α × QuadTree α) × Bool) := do
  let (ne, nw, se, sw) := quads
  let (ne', r1) ← ins ne obj
  if r1 then pure ((ne', nw, se, sw), true)
  else
    let (nw', r2) ← ins nw obj
    if r2 then pure ((ne', nw', se, sw), true)
    else
      let (se', r3) ← ins se obj
      if r3 then pure ((ne', nw', se', sw), true)
      else
        let (sw', r4) ← ins sw obj
        pure ((ne', nw', se', sw'), r4)

/-- Insertion (selection.js `QuadTree.insert`).  The JS recursion has no
structural bound (its depth depends on how close existing points are), so
the embedding carries explicit fuel: `none` means the fuel ran out, `some
(t', r)` the rewritten tree and the JS boolean result.  A node whose bounds
do not contain the point rejects it unchanged; an undivided node below
capacity appends; a full undivided node subdivides, redistributes its
objects into the children (results ignored, as by the JS `||` statements),
clears its list and becomes divided; a divided node delegates to the child
chain. -/
def insert : ℕ → QuadTree α → PointObj α → Option (QuadTree α × Bool)
  | 0, _, _ => none
  | fuel + 1, t, obj =>
    if ¬ containsPoint t.bounds obj.x obj.y then some (t, false)
    else
      match t with
      | .leaf b cap objs =>
        if objs.length < cap then some (.leaf b cap (objs ++ [obj]), true)
        else do
          let quads0 := subdivided b cap
          let quads1 ← objs.foldlM
            (fun quads existing => (insertChain (insert fuel) quads existing).map Prod.fst)
            quads0
          let (quads2, r) ← insertChain (insert fuel) quads1 obj
          pure (.node b cap [] quads2.1 quads2.2.1 quads2.2.2.1 quads2.2.2.2, r)
      | .node b cap objs ne nw se sw => do
        let (quads, r) ← insertChain (insert fuel) (ne, nw, se, sw) obj
        pure (.node b cap objs quads.1 quads.2.1 quads.2.2.1 quads.2.2.2, r)

/-- Circle query (selection.js `QuadTree.queryCircle`): prune nodes whose
bounds miss the circle, keep held objects within exact distance, recurse
into the four children, accumulating into `found`. -/
def queryCircle : QuadTree α → α → α → α → List (PointObj α) → List (PointObj α)
  | t, cx, cy, radius, found =>
    if ¬ intersectsCircle t.bounds cx cy radius then found
    else
      let found1 := found ++ t.objects.filter fun obj =>
        decide ((obj.x - cx) * (obj.x - cx) + (obj.y - cy) * (obj.y - cy) ≤ radius * radius)
      match t with
      | .leaf _ _ _ => found1
      | .node _ _ _ ne nw se sw =>
        queryCircle sw cx cy radius
          (queryCircle se cx cy radius
            (queryCircle nw cx cy radius
              (queryCircle ne cx cy radius found1)))

/-- Multiset of all objects stored anywhere in the tree. -/
def stored : QuadTree α → Multiset (PointObj α)
  | .leaf _ _ objs => ↑objs
  | .node _ _ objs ne nw se sw =>
      ↑objs + stored ne + stored nw + stored se + stored sw

/-- Insert a list of objects left to right, as `rebuildQuadtree`
(selection.js lines 136-147) does over the asteroid array. -/
def insertAll (fuel : ℕ) : QuadTree α → List (PointObj α) → Option (QuadTree α)
  | t, [] => some t
  | t, obj :: objs => do
    let (t', _) ← insert fuel t obj
    insertAll fuel t' objs

end QuadTree

/-- Point-pick query (selection.js `SelectionManager.findAsteroidAt`):
query the quadtree for candidates within `tolerance + 50`, then keep the
closest candidate whose exact distance is within its hit radius.  The JS
`closest = null / closestDist = Infinity` pair is modelled as an optional
`(object, distance)` pair (`none` exactly when `closest === null`, in which
case `dist < Infinity` is always true). -/
noncomputable def findAsteroidAt (qt : QuadTree ℝ) (worldX worldY tolerance : ℝ) :
    Option (PointObj ℝ) :=
  let candidates := QuadTree.queryCircle qt worldX worldY (tolerance + 50) []
  (candidates.foldl (fun acc asteroid =>
    let dx := worldX - asteroid.x
    let dy := worldY - asteroid.y
    let dist := Real.sqrt (dx * dx + dy * dy)
    let hitRadius := asteroid.radius + tolerance
    match acc with
    | none => if dist ≤ hitRadius then some (asteroid, dist) else none
    | some (b, closestDist) =>
        if dist ≤ hitRadius ∧ dist < closestDist then some (asteroid, dist)
        else some (b, closestDist)) none).map Prod.fst

/- ## Helper lemmas -/

section Helpers

lemma magnitude_nonneg (x y : ℝ) : 0 ≤ magnitude x y := Real.sqrt_nonneg _

lemma magnitude_mul_self (x y : ℝ) : magnitude x y * magnitude x y = x * x + y * y :=
  Real.mul_self_sqrt (add_nonneg (mul_self_nonneg x) (mul_self_nonneg y))

lemma magnitude_of_sq (x y c : ℝ) (hc : 0 ≤ c) (h : x * x + y * y = c ^ 2) :
    magnitude x y = c := by
  rw [magnitude, h, Real.sqrt_sq hc]

lemma normalizeAngle_mem (x : ℝ) : normalizeAngle x ∈ Set.Ico 0 (2 * π) := by
  have h2π : (0:ℝ) < 2 * π := by linarith [Real.pi_pos]
  constructor
  · have hfl : (⌊x / (2 * π)⌋ : ℝ) ≤ x / (2 * π) := Int.floor_le _
    have h : 2 * π * (⌊x / (2 * π)⌋ : ℝ) ≤ x := by
      rw [mul_comm]
      exact (le_div_iff₀ h2π).mp hfl
    simpa [normalizeAngle, sub_nonneg] using h
  · have hfl : x / (2 * π) < (⌊x / (2 * π)⌋ : ℝ) + 1 := Int.lt_floor_add_one _
    have h : x < 2 * π * ((⌊x / (2 * π)⌋ : ℝ) + 1) := by
      rw [mul_comm]
      exact (div_lt_iff₀ h2π).mp hfl
    simp only [normalizeAngle]
    nlinarith

lemma normalizeAngle_zero : normalizeAngle 0 = 0 := by
  simp [normalizeAngle]

lemma keplerLoop_exact (M e E : ℝ) (n : ℕ) (hf : E - e * Real.sin E - M = 0) :
    keplerLoop M e (n + 1) E = E := by
  simp only [keplerLoop, hf, zero_div, sub_zero, abs_zero]
  rw [if_pos (by rw [KEPLER_TOLERANCE]; norm_num)]

lemma rotation_sq_sum (x y w : ℝ) :
    (x * Real.cos w - y * Real.sin w) * (x * Real.cos w - y * Real.sin w) +
      (x * Real.sin w + y * Real.cos w) * (x * Real.sin w + y * Real.cos w) =
      x * x + y * y := by
  linear_combination (x * x + y * y) * Real.sin_sq_add_cos_sq w

lemma rotation_dot (x1 y1 x2 y2 w : ℝ) :
    (x1 * Real.cos w - y1 * Real.sin w) * (x2 * Real.cos w - y2 * Real.sin w) +
      (x1 * Real.sin w + y1 * Real.cos w) * (x2 * Real.sin w + y2 * Real.cos w) =
      x1 * x2 + y1 * y2 := by
  linear_combination (x1 * x2 + y1 * y2) * Real.sin_sq_add_cos_sq w

lemma arg_cos_sin_mk (w : ℝ) (h1 : -π < w) (h2 : w ≤ π) :
    Complex.arg ⟨Real.cos w, Real.sin w⟩ = w := by
  have he : (⟨Real.cos w, Real.sin w⟩ : ℂ) = Complex.cos w + Complex.sin w * Complex.I := by
    apply Complex.ext <;> simp [Complex.cos_ofReal_re, Complex.sin_ofReal_re]
  rw [he]
  exact Complex.arg_cos_add_sin_mul_I ⟨h1, h2⟩

lemma arg_mk_smul_pos (r x y : ℝ) (hr : 0 < r) :
    Complex.arg ⟨r * x, r * y⟩ = Complex.arg ⟨x, y⟩ := by
  have he : (⟨r * x, r * y⟩ : ℂ) = (r : ℂ) * ⟨x, y⟩ := by
    apply Complex.ext <;> simp
  rw [he]
  exact Complex.arg_real_mul _ hr

/-- Specification of the selection loop of `findAsteroidAt` (selection.js
lines 162-175), folded over an arbitrary candidate list with a
well-formed accumulator (`some (b, d)` stands for the JS pair
`closest = b, closestDist = d`; `none` for `closest = null,
closestDist = Infinity`). -/
lemma findAsteroid_foldl_spec (worldX worldY tolerance : ℝ) :
    ∀ (l : List (PointObj ℝ)) (acc : Option (PointObj ℝ × ℝ)),
    (∀ b d, acc = some (b, d) →
      d = Real.sqrt ((worldX - b.x) * (worldX - b.x) + (worldY - b.y) * (worldY - b.y)) ∧
      d ≤ b.radius + tolerance) →
    ((l.foldl (fun acc asteroid =>
        let dx := worldX - asteroid.x
        let dy := worldY - asteroid.y
        let dist := Real.sqrt (dx * dx + dy * dy)
        let hitRadius := asteroid.radius + tolerance
        match acc with
        | none => if dist ≤ hitRadius then some (asteroid, dist) else none
        | some (b, closestDist) =>
            if dist ≤ hitRadius ∧ dist < closestDist then some (asteroid, dist)
            else some (b, closestDist)) acc = none ↔
      (acc = none ∧ ∀ c ∈ l,
        ¬ Real.sqrt ((worldX - c.x) * (worldX - c.x) + (worldY - c.y) * (worldY - c.y)) ≤
          c.radius + tolerance)) ∧
    (∀ b d, l.foldl (fun acc asteroid =>
        let dx := worldX - asteroid.x
        let dy := worldY - asteroid.y
        let dist := Real.sqrt (dx * dx + dy * dy)
        let hitRadius := asteroid.radius + tolerance
        match acc with
        | none => if dist ≤ hitRadius then some (asteroid, dist) else none
        | some (b, closestDist) =>
            if dist ≤ hitRadius ∧ dist < closestDist then some (asteroid, dist)
            else some (b, closestDist)) acc = some (b, d) →
      d = Real.sqrt ((worldX - b.x) * (worldX - b.x) + (worldY - b.y) * (worldY - b.y)) ∧
      d ≤ b.radius + tolerance ∧
      (b ∈ l ∨ acc = some (b, d)) ∧
      (∀ c ∈ l,
        Real.sqrt ((worldX - c.x) * (worldX - c.x) + (worldY - c.y) * (worldY - c.y)) ≤
          c.radius + tolerance →
        Real.sqrt ((worldX - b.x) * (worldX - b.x) + (worldY - b.y) * (worldY - b.y)) ≤
          Real.sqrt ((worldX - c.x) * (worldX - c.x) + (worldY - c.y) * (worldY - c.y))) ∧
      (∀ b0 d0, acc = some (b0, d0) → d ≤ d0))) := by
  intro l
  induction l with
  | nil =>
    intro acc hacc
    rw [List.foldl_nil]
    constructor
    · constructor
      · intro h0
        exact ⟨h0, fun c hc => absurd hc (List.not_mem_nil c)⟩
      · rintro ⟨h0, -⟩
        exact h0
    · intro b d hres
      obtain ⟨hd, hq⟩ := hacc b d hres
      refine ⟨hd, hq, Or.inr hres, fun c hc => absurd hc (List.not_mem_nil c), ?_⟩
      intro b0 d0 h0
      rw [hres, Option.some_inj, Prod.mk.injEq] at h0
      exact le_of_eq h0.2
  | cons c rest ih =>
    intro acc hacc
    rw [List.foldl_cons]
    set dc := Real.sqrt ((worldX - c.x) * (worldX - c.x) + (worldY - c.y) * (worldY - c.y))
      with hdc
    cases acc with
    | none =>
      simp only
      by_cases hq : dc ≤ c.radius + tolerance
      · rw [if_pos hq]
        have hacc' : ∀ b d, (some (c, dc) : Option (PointObj ℝ × ℝ)) = some (b, d) →
            d = Real.sqrt ((worldX - b.x) * (worldX - b.x) + (worldY - b.y) * (worldY - b.y)) ∧
            d ≤ b.radius + tolerance := by
          intro b d h0
          rw [Option.some_inj, Prod.mk.injEq] at h0
          obtain ⟨rfl, rfl⟩ := h0
          exact ⟨hdc, hq⟩
        obtain ⟨ih1, ih2⟩ := ih (some (c, dc)) hacc'
        constructor
        · rw [ih1]
          constructor
          · rintro ⟨h0, -⟩
            exact absurd h0 (Option.some_ne_none _)
          · rintro ⟨-, hall⟩
            exact absurd hq (hall c (List.mem_cons_self c rest))
        · intro b d hres
          obtain ⟨hd, hqb, hmem, hmin, hlast⟩ := ih2 b d hres
          refine ⟨hd, hqb, ?_, ?_, ?_⟩
          · rcases hmem with hm | hm
            · exact Or.inl (List.mem_cons_of_mem c hm)
            · rw [Option.some_inj, Prod.mk.injEq] at hm
              exact Or.inl (hm.1 ▸ List.mem_cons_self c rest)
          · intro x hx hqx
            rcases List.mem_cons.mp hx with rfl | hx
            · rw [← hd]
              exact hlast x dc rfl
            · exact hmin x hx hqx
          · intro b0 d0 h0
            exact absurd h0 (Option.noConfusion)
      · rw [if_neg hq]
        obtain ⟨ih1, ih2⟩ := ih none (fun b d h0 => absurd h0 (Option.noConfusion))
        constructor
        · rw [ih1]
          constructor
          · rintro ⟨-, hall⟩
            refine ⟨by simp, ?_⟩
            intro x hx
            rcases List.mem_cons.mp hx with rfl | hx
            · exact hq
            · exact hall x hx
          · rintro ⟨-, hall⟩
            exact ⟨by simp, fun x hx => hall x (List.mem_cons_of_mem c hx)⟩
        · intro b d hres
          obtain ⟨hd, hqb, hmem, hmin, -⟩ := ih2 b d hres
          refine ⟨hd, hqb, ?_, ?_, ?_⟩
          · rcases hmem with hm | hm
            · exact Or.inl (List.mem_cons_of_mem c hm)
            · exact absurd hm (Option.noConfusion)
          · intro x hx hqx
            rcases List.mem_cons.mp hx with rfl | hx
            · exact absurd hqx hq
            · exact hmin x hx hqx
          · intro b0 d0 h0
            exact absurd h0 (Option.noConfusion)
    | some p =>
      obtain ⟨b0, d0⟩ := p
      obtain ⟨hd0, hq0⟩ := hacc b0 d0 rfl
      simp only
      by_cases hcond : dc ≤ c.radius + tolerance ∧ dc < d0
      · rw [if_pos hcond]
        have hacc' : ∀ b d, (some (c, dc) : Option (PointObj ℝ × ℝ)) = some (b, d) →
            d = Real.sqrt ((worldX - b.x) * (worldX - b.x) + (worldY - b.y) * (worldY - b.y)) ∧
            d ≤ b.radius + tolerance := by
          intro b d h0
          rw [Option.some_inj, Prod.mk.injEq] at h0
          obtain ⟨rfl, rfl⟩ := h0
          exact ⟨hdc, hcond.1⟩
        obtain ⟨ih1, ih2⟩ := ih (some (c, dc)) hacc'
        constructor
        · rw [ih1]
          constructor
          · rintro ⟨h0, -⟩
            exact absurd h0 (Option.some_ne_none _)
          · rintro ⟨h0, -⟩
            exact absurd h0 (Option.some_ne_none _)
        · intro b d hres
          obtain ⟨hd, hqb, hmem, hmin, hlast⟩ := ih2 b d hres
          refine ⟨hd, hqb, ?_, ?_, ?_⟩
          · rcases hmem with hm | hm
            · exact Or.inl (List.mem_cons_of_mem c hm)
            · rw [Option.some_inj, Prod.mk.injEq] at hm
              exact Or.inl (hm.1 ▸ List.mem_cons_self c rest)
          · intro x hx hqx
            rcases List.mem_cons.mp hx with rfl | hx
            · rw [← hd]
              exact hlast x dc rfl
            · exact hmin x hx hqx
          · intro b1 d1 h1
            rw [Option.some_inj, Prod.mk.injEq] at h1
            have : d ≤ dc := hlast c dc rfl
            rw [← h1.2]
            exact le_trans this (le_of_lt hcond.2)
      · rw [if_neg hcond]
        obtain ⟨ih1, ih2⟩ := ih (some (b0, d0)) (fun b d h0 => by
          rw [Option.some_inj, Prod.mk.injEq] at h0
          obtain ⟨rfl, rfl⟩ := h0
          exact ⟨hd0, hq0⟩)
        constructor
        · rw [ih1]
          constructor
          · rintro ⟨h0, -⟩
            exact absurd h0 (Option.some_ne_none _)
          · rintro ⟨h0, -⟩
            exact absurd h0 (Option.some_ne_none _)
        · intro b d hres
          obtain ⟨hd, hqb, hmem, hmin, hlast⟩ := ih2 b d hres
          refine ⟨hd, hqb, ?_, ?_, ?_⟩
          · rcases hmem with hm | hm
            · exact Or.inl (List.mem_cons_of_mem c hm)
            · exact Or.inr hm
          · intro x hx hqx
            rcases List.mem_cons.mp hx with rfl | hx
            · have hd0x : d0 ≤ dc := by
                by_contra hlt
                exact hcond ⟨hqx, lt_of_not_le hlt⟩
              have : d ≤ d0 := hlast b0 d0 rfl
              rw [← hd]
              exact le_trans this hd0x
            · exact hmin x hx hqx
          · intro b1 d1 h1
            rw [Option.some_inj, Prod.mk.injEq] at h1
            rw [← h1.2]
            exact hlast b0 d0 rfl

end Helpers

/- ## Quadtree invariants and specifications -/

namespace QuadTree

variable {α : Type} [LinearOrderedField α]

/-- Capacity-independent well-formedness: every object held by a node lies
inside the node's bounds, and the children of a divided node are exactly the
four quadrants of its bounds (as built by `subdivide`). -/
def WF : QuadTree α → Prop
  | .leaf b _ objs => ∀ o ∈ objs, containsPoint b o.x o.y
  | .node b _ objs ne nw se sw =>
      (∀ o ∈ objs, containsPoint b o.x o.y) ∧
      (ne.bounds = ⟨b.x + b.width / 2, b.y, b.width / 2, b.height / 2⟩ ∧
       nw.bounds = ⟨b.x, b.y, b.width / 2, b.height / 2⟩ ∧
       se.bounds = ⟨b.x + b.width / 2, b.y + b.height / 2, b.width / 2, b.height / 2⟩ ∧
       sw.bounds = ⟨b.x, b.y + b.height / 2, b.width / 2, b.height / 2⟩) ∧
      WF ne ∧ WF nw ∧ WF se ∧ WF sw

/-- Well-formedness of a quadruple of children relative to parent bounds. -/
def WFQuads (b : Rect α) (q : QuadTree α × QuadTree α × QuadTree α × QuadTree α) : Prop :=
  (q.1.bounds = ⟨b.x + b.width / 2, b.y, b.width / 2, b.height / 2⟩ ∧
   q.2.1.bounds = ⟨b.x, b.y, b.width / 2, b.height / 2⟩ ∧
   q.2.2.1.bounds = ⟨b.x + b.width / 2, b.y + b.height / 2, b.width / 2, b.height / 2⟩ ∧
   q.2.2.2.bounds = ⟨b.x, b.y + b.height / 2, b.width / 2, b.height / 2⟩) ∧
  WF q.1 ∧ WF q.2.1 ∧ WF q.2.2.1 ∧ WF q.2.2.2

/-- Total content of a quadruple of children. -/
def storedQuads (q : QuadTree α × QuadTree α × QuadTree α × QuadTree α) :
    Multiset (PointObj α) :=
  stored q.1 + stored q.2.1 + stored q.2.2.1 + stored q.2.2.2

lemma wf_node_iff (b : Rect α) (cap : ℕ) (objs : List (PointObj α))
    (ne nw se sw : QuadTree α) :
    WF (.node b cap objs ne nw se sw) ↔
      (∀ o ∈ objs, containsPoint b o.x o.y) ∧ WFQuads b (ne, nw, se, sw) :=
  Iff.rfl

lemma wf_subdivided (b : Rect α) (cap : ℕ) : WFQuads b (subdivided b cap) := by
  refine ⟨⟨rfl, rfl, rfl, rfl⟩, ?_, ?_, ?_, ?_⟩ <;> exact fun o ho => absurd ho (List.not_mem_nil o)

lemma storedQuads_subdivided (b : Rect α) (cap : ℕ) : storedQuads (subdivided b cap) = 0 :=
  rfl

/-- A point inside a quadrant of `b` is inside `b`. -/
lemma containsPoint_quadrant {b : Rect α} {qx qy x y : α}
    (hdx : qx = b.x ∨ qx = b.x + b.width / 2) (hdy : qy = b.y ∨ qy = b.y + b.height / 2)
    (h : containsPoint ⟨qx, qy, b.width / 2, b.height / 2⟩ x y) :
    containsPoint b x y := by
  obtain ⟨h1, h2, h3, h4⟩ := h
  simp only [containsPoint] at h1 h2 h3 h4 ⊢
  rcases hdx with rfl | rfl <;> rcases hdy with rfl | rfl <;>
    exact ⟨by linarith, by linarith, by linarith, by linarith⟩

/-- A point inside `b` is inside one of the four quadrants. -/
lemma containsPoint_tiling {b : Rect α} {x y : α} (h : containsPoint b x y) :
    containsPoint ⟨b.x + b.width / 2, b.y, b.width / 2, b.height / 2⟩ x y ∨
    containsPoint ⟨b.x, b.y, b.width / 2, b.height / 2⟩ x y ∨
    containsPoint ⟨b.x + b.width / 2, b.y + b.height / 2, b.width / 2, b.height / 2⟩ x y ∨
    containsPoint ⟨b.x, b.y + b.height / 2, b.width / 2, b.height / 2⟩ x y := by
  obtain ⟨h1, h2, h3, h4⟩ := h
  rcases le_or_lt (b.x + b.width / 2) x with hx | hx <;>
    rcases le_or_lt (b.y + b.height / 2) y with hy | hy
  · exact Or.inr (Or.inr (Or.inl ⟨hx, by linarith, hy, by linarith⟩))
  · exact Or.inl ⟨hx, by linarith, h3, hy⟩
  · exact Or.inr (Or.inr (Or.inr ⟨h1, hx, hy, by linarith⟩))
  · exact Or.inr (Or.inl ⟨h1, hx, h3, hy⟩)

/-- Everything stored in a well-formed tree lies inside its bounds. -/
lemma stored_mem_containsPoint :
    ∀ (t : QuadTree α), WF t → ∀ o ∈ stored t, containsPoint t.bounds o.x o.y := by
  intro t
  induction t with
  | leaf b cap objs =>
    intro hWF o ho
    exact hWF o (by simpa [stored] using ho)
  | node b cap objs ne nw se sw ihne ihnw ihse ihsw =>
    intro hWF o ho
    simp only [bounds]
    obtain ⟨hobjs, ⟨hbne, hbnw, hbse, hbsw⟩, hne, hnw, hse, hsw⟩ := hWF
    simp only [stored, Multiset.mem_add, Multiset.mem_coe] at ho
    rcases ho with ((((ho | ho) | ho) | ho) | ho)
    · exact hobjs o ho
    · exact containsPoint_quadrant (Or.inr rfl) (Or.inl rfl)
        (by rw [← hbne]; exact ihne hne o ho)
    · exact containsPoint_quadrant (Or.inl rfl) (Or.inl rfl)
        (by rw [← hbnw]; exact ihnw hnw o ho)
    · exact containsPoint_quadrant (Or.inr rfl) (Or.inr rfl)
        (by rw [← hbse]; exact ihse hse o ho)
    · exact containsPoint_quadrant (Or.inl rfl) (Or.inr rfl)
        (by rw [← hbsw]; exact ihsw hsw o ho)

/-- Specification of the short-circuit child-insertion chain, parametric in
the single-node insert `ins` and its specification. -/
lemma insertChain_spec (ins : QuadTree α → PointObj α → Option (QuadTree α × Bool))
    (hins : ∀ (t : QuadTree α) (obj : PointObj α) (t' : QuadTree α) (r : Bool),
      WF t → ins t obj = some (t', r) →
      WF t' ∧ t'.bounds = t.bounds ∧
      stored t' = (if r then obj ::ₘ stored t else stored t) ∧
      (r = true ↔ containsPoint t.bounds obj.x obj.y))
    (b : Rect α) (quads quads' : QuadTree α × QuadTree α × QuadTree α × QuadTree α)
    (obj : PointObj α) (r : Bool)
    (hWFq : WFQuads b quads)
    (h : insertChain ins quads obj = some (quads', r)) :
    WFQuads b quads' ∧
    storedQuads quads' = (if r then obj ::ₘ storedQuads quads else storedQuads quads) ∧
    (r = true ↔ containsPoint b obj.x obj.y) := by
  obtain ⟨ne, nw, se, sw⟩ := quads
  obtain ⟨⟨hbne, hbnw, hbse, hbsw⟩, hne, hnw, hse, hsw⟩ := hWFq
  simp only [insertChain, Option.bind_eq_bind, Option.bind_eq_some] at h
  obtain ⟨⟨ne', r1⟩, h1, h⟩ := h
  obtain ⟨hWFne', hbne', hstne', hrne'⟩ := hins ne obj ne' r1 hne h1
  by_cases hr1 : r1 = true
  · subst hr1
    simp only [reduceIte, Option.pure_def, Option.some_inj, Prod.mk.injEq] at h
    obtain ⟨rfl, rfl⟩ := h
    refine ⟨⟨⟨hbne'.trans hbne, hbnw, hbse, hbsw⟩, hWFne', hnw, hse, hsw⟩, ?_, ?_⟩
    · simp only [storedQuads, reduceIte] at hstne' ⊢
      rw [hstne']
      simp [Multiset.cons_add]
    · simp only [true_iff] at hrne' ⊢
      exact containsPoint_quadrant (Or.inr rfl) (Or.inl rfl) (hbne ▸ hrne')
  · rw [Bool.not_eq_true] at hr1
    subst hr1
    simp only [Bool.false_eq_true, reduceIte, Option.bind_eq_some] at h
    obtain ⟨⟨nw', r2⟩, h2, h⟩ := h
    obtain ⟨hWFnw', hbnw', hstnw', hrnw'⟩ := hins nw obj nw' r2 hnw h2
    simp only [Bool.false_eq_true, if_false] at hstne'
    have hcne : ¬ containsPoint ne.bounds obj.x obj.y := by
      intro hc
      exact Bool.false_ne_true (hrne'.mpr hc)
    by_cases hr2 : r2 = true
    · subst hr2
      simp only [reduceIte, Option.pure_def, Option.some_inj, Prod.mk.injEq] at h
      obtain ⟨rfl, rfl⟩ := h
      refine ⟨⟨⟨hbne'.trans hbne, hbnw'.trans hbnw, hbse, hbsw⟩, hWFne', hWFnw', hse, hsw⟩, ?_, ?_⟩
      · simp only [storedQuads, reduceIte] at hstnw' ⊢
        rw [hstne', hstnw']
        simp [Multiset.cons_add, Multiset.add_cons]
      · simp only [true_iff] at hrnw' ⊢
        exact containsPoint_quadrant (Or.inl rfl) (Or.inl rfl) (hbnw ▸ hrnw')
    · rw [Bool.not_eq_true] at hr2
      subst hr2
      simp only [Bool.false_eq_true, reduceIte, Option.bind_eq_some] at h
      obtain ⟨⟨se', r3⟩, h3, h⟩ := h
      obtain ⟨hWFse', hbse', hstse', hrse'⟩ := hins se obj se' r3 hse h3
      simp only [Bool.false_eq_true, if_false] at hstnw'
      have hcnw : ¬ containsPoint nw.bounds obj.x obj.y := by
        intro hc
        exact Bool.false_ne_true (hrnw'.mpr hc)
      by_cases hr3 : r3 = true
      · subst hr3
        simp only [reduceIte, Option.pure_def, Option.some_inj, Prod.mk.injEq] at h
        obtain ⟨rfl, rfl⟩ := h
        refine ⟨⟨⟨hbne'.trans hbne, hbnw'.trans hbnw, hbse'.trans hbse, hbsw⟩,
          hWFne', hWFnw', hWFse', hsw⟩, ?_, ?_⟩
        · simp only [storedQuads, reduceIte] at hstse' ⊢
          rw [hstne', hstnw', hstse']
          simp [Multiset.cons_add, Multiset.add_cons]
        · simp only [true_iff] at hrse' ⊢
          exact containsPoint_quadrant (Or.inr rfl) (Or.inr rfl) (hbse ▸ hrse')
      · rw [Bool.not_eq_true] at hr3
        subst hr3
        simp only [Bool.false_eq_true, reduceIte, Option.bind_eq_some] at h
        obtain ⟨⟨sw', r4⟩, h4, h⟩ := h
        obtain ⟨hWFsw', hbsw', hstsw', hrsw'⟩ := hins sw obj sw' r4 hsw h4
        simp only [Bool.false_eq_true, if_false] at hstse'
        have hcse : ¬ containsPoint se.bounds obj.x obj.y := by
          intro hc
          exact Bool.false_ne_true (hrse'.mpr hc)
        simp only [Option.pure_def, Option.some_inj, Prod.mk.injEq] at h
        obtain ⟨rfl, rfl⟩ := h
        refine ⟨⟨⟨hbne'.trans hbne, hbnw'.trans hbnw, hbse'.trans hbse, hbsw'.trans hbsw⟩,
          hWFne', hWFnw', hWFse', hWFsw'⟩, ?_, ?_⟩
        · by_cases hr4 : r4 = true
          · subst hr4
            simp only [storedQuads, reduceIte] at hstsw' ⊢
            rw [hstne', hstnw', hstse', hstsw']
            simp [Multiset.cons_add, Multiset.add_cons]
          · rw [Bool.not_eq_true] at hr4
            subst hr4
            simp only [Bool.false_eq_true, if_false, storedQuads] at hstsw' ⊢
            rw [hstne', hstnw', hstse', hstsw']
        · constructor
          · intro hr4
            subst hr4
            exact containsPoint_quadrant (Or.inl rfl) (Or.inr rfl) (hbsw ▸ hrsw'.mp rfl)
          · intro hc
            rcases containsPoint_tiling hc with hq | hq | hq | hq
            · exact absurd (hbne ▸ hq) hcne
            · exact absurd (hbnw ▸ hq) hcnw
            · exact absurd (hbse ▸ hq) hcse
            · exact hrsw'.mpr (hbsw ▸ hq)

/-- Specification of the redistribution loop (selection.js lines 79-84):
folding the child-insert chain over a list of objects lying inside the
parent bounds moves all of them into the children. -/
lemma redistribute_spec (ins : QuadTree α → PointObj α → Option (QuadTree α × Bool))
    (hins : ∀ (t : QuadTree α) (obj : PointObj α) (t' : QuadTree α) (r : Bool),
      WF t → ins t obj = some (t', r) →
      WF t' ∧ t'.bounds = t.bounds ∧
      stored t' = (if r then obj ::ₘ stored t else stored t) ∧
      (r = true ↔ containsPoint t.bounds obj.x obj.y))
    (b : Rect α) :
    ∀ (objs : List (PointObj α)) (quads quads' : QuadTree α × QuadTree α × QuadTree α × QuadTree α),
    WFQuads b quads → (∀ o ∈ objs, containsPoint b o.x o.y) →
    objs.foldlM (fun q o => (insertChain ins q o).map Prod.fst) quads = some quads' →
    WFQuads b quads' ∧ storedQuads quads' = ↑objs + storedQuads quads := by
  intro objs
  induction objs with
  | nil =>
    intro quads quads' hWFq _ h
    simp only [List.foldlM_nil, Option.pure_def, Option.some_inj] at h
    subst h
    simp [hWFq]
  | cons o os ih =>
    intro quads quads' hWFq hin h
    simp only [List.foldlM_cons, Option.bind_eq_bind, Option.bind_eq_some] at h
    obtain ⟨q1, h1, h⟩ := h
    rw [Option.map_eq_some'] at h1
    obtain ⟨⟨q1', r1⟩, hic, hq1⟩ := h1
    subst hq1
    obtain ⟨hWFq1, hst1, hr1⟩ := insertChain_spec ins hins b quads _ o r1 hWFq hic
    have hr1t : r1 = true := hr1.mpr (hin o (List.mem_cons_self o os))
    subst hr1t
    simp only [reduceIte] at hst1
    obtain ⟨hWFq', hst'⟩ := ih _ _ hWFq1 (fun o' ho' => hin o' (List.mem_cons_of_mem o ho')) h
    refine ⟨hWFq', ?_⟩
    rw [hst', hst1, Multiset.add_cons, ← Multiset.cons_coe, Multiset.cons_add]

/-- Specification of `insert`: when it returns (enough fuel), it preserves
well-formedness and bounds, it adds the object to the stored multiset exactly
when it reports success, and it succeeds exactly when the object's position
lies inside the node's bounds. -/
lemma insert_spec :
    ∀ (fuel : ℕ) (t : QuadTree α) (obj : PointObj α) (t' : QuadTree α) (r : Bool),
    WF t → insert fuel t obj = some (t', r) →
    WF t' ∧ t'.bounds = t.bounds ∧
    stored t' = (if r then obj ::ₘ stored t else stored t) ∧
    (r = true ↔ containsPoint t.bounds obj.x obj.y) := by
  intro fuel
  induction fuel with
  | zero =>
    intro t obj t' r _ h
    simp [insert] at h
  | succ fuel ih =>
    intro t obj t' r hWF h
    cases t with
    | leaf b cap objs =>
      simp only [insert, bounds] at h
      simp only [bounds]
      by_cases hcp : containsPoint b obj.x obj.y
      · rw [if_neg (not_not_intro hcp)] at h
        by_cases hlen : objs.length < cap
        · rw [if_pos hlen, Option.some_inj] at h
          rw [Prod.mk.injEq] at h
          obtain ⟨rfl, rfl⟩ := h
          refine ⟨?_, rfl, ?_, by simp [hcp]⟩
          · intro o ho
            rcases List.mem_append.mp ho with ho | ho
            · exact hWF o ho
            · rw [List.mem_singleton.mp ho]
              exact hcp
          · simp only [stored, reduceIte]
            rw [← Multiset.coe_add, Multiset.coe_singleton, add_comm, Multiset.singleton_add]
        · rw [if_neg hlen] at h
          simp only [Option.bind_eq_bind, Option.bind_eq_some] at h
          obtain ⟨quads1, h1, h⟩ := h
          obtain ⟨⟨quads2, r2⟩, h2, h⟩ := h
          simp only [Option.pure_def, Option.some_inj] at h
          rw [Prod.mk.injEq] at h
          obtain ⟨rfl, rfl⟩ := h
          obtain ⟨hWFq1, hstq1⟩ := redistribute_spec (insert fuel) ih b objs
            (subdivided b cap) quads1 (wf_subdivided b cap) hWF h1
          obtain ⟨hWFq2, hstq2, hr2⟩ := insertChain_spec (insert fuel) ih b
            quads1 quads2 obj r2 hWFq1 h2
          have hr2t : r2 = true := hr2.mpr hcp
          subst hr2t
          simp only [reduceIte] at hstq2
          refine ⟨?_, rfl, ?_, by simp [hcp]⟩
          · rw [wf_node_iff]
            exact ⟨fun o ho => absurd ho (List.not_mem_nil o),
              by obtain ⟨q1, q2, q3, q4⟩ := quads2; exact hWFq2⟩
          · have hs : stored (QuadTree.node b cap []
                quads2.1 quads2.2.1 quads2.2.2.1 quads2.2.2.2) = storedQuads quads2 := by
              simp only [stored, storedQuads, Multiset.coe_nil, zero_add]
            rw [hs, hstq2, hstq1, storedQuads_subdivided, add_zero]
            simp only [stored, reduceIte]
      · rw [if_pos hcp, Option.some_inj, Prod.mk.injEq] at h
        obtain ⟨rfl, rfl⟩ := h
        exact ⟨hWF, rfl, by simp, by simp [hcp]⟩
    | node b cap objs ne nw se sw =>
      simp only [insert, bounds] at h
      simp only [bounds]
      by_cases hcp : containsPoint b obj.x obj.y
      · rw [if_neg (not_not_intro hcp)] at h
        simp only [Option.bind_eq_bind, Option.bind_eq_some] at h
        obtain ⟨⟨quads2, r2⟩, h2, h⟩ := h
        simp only [Option.pure_def, Option.some_inj] at h
        rw [Prod.mk.injEq] at h
        obtain ⟨rfl, rfl⟩ := h
        rw [wf_node_iff] at hWF
        obtain ⟨hobjs, hWFq⟩ := hWF
        obtain ⟨hWFq2, hstq2, hr2⟩ := insertChain_spec (insert fuel) ih b
          (ne, nw, se, sw) quads2 obj r2 hWFq h2
        refine ⟨?_, rfl, ?_, ?_⟩
        · rw [wf_node_iff]
          exact ⟨hobjs, by obtain ⟨q1, q2, q3, q4⟩ := quads2; exact hWFq2⟩
        · have hs : stored (QuadTree.node b cap objs
              quads2.1 quads2.2.1 quads2.2.2.1 quads2.2.2.2) = ↑objs + storedQuads quads2 := by
            simp only [stored, storedQuads]
            abel
          have hs0 : stored (QuadTree.node b cap objs ne nw se sw) =
              ↑objs + storedQuads (ne, nw, se, sw) := by
            simp only [stored, storedQuads]
            abel
          rw [hs, hstq2, hs0]
          by_cases hr2t : r2 = true
          · subst hr2t
            simp only [reduceIte]
            rw [Multiset.add_cons]
          · rw [Bool.not_eq_true] at hr2t
            subst hr2t
            simp only [Bool.false_eq_true, if_false]
        · exact hr2
      · rw [if_pos hcp, Option.some_inj, Prod.mk.injEq] at h
        obtain ⟨rfl, rfl⟩ := h
        exact ⟨hWF, rfl, by simp, by simp [hcp]⟩

/-- Inserting a list of objects that all lie inside the tree's bounds adds
exactly those objects to the stored multiset. -/
lemma insertAll_spec :
    ∀ (objs : List (PointObj α)) (fuel : ℕ) (t t' : QuadTree α),
    WF t → (∀ o ∈ objs, containsPoint t.bounds o.x o.y) →
    insertAll fuel t objs = some t' →
    WF t' ∧ t'.bounds = t.bounds ∧ stored t' = ↑objs + stored t := by
  intro objs
  induction objs with
  | nil =>
    intro fuel t t' hWF _ h
    simp only [insertAll, Option.some_inj] at h
    subst h
    simp [hWF]
  | cons o os ih =>
    intro fuel t t' hWF hin h
    simp only [insertAll, Option.bind_eq_bind, Option.bind_eq_some] at h
    obtain ⟨⟨t1, r1⟩, h1, h⟩ := h
    obtain ⟨hWFt1, hbt1, hstt1, hrt1⟩ := insert_spec fuel t o t1 r1 hWF h1
    have hr1t : r1 = true := hrt1.mpr (hin o (List.mem_cons_self o os))
    subst hr1t
    simp only [reduceIte] at hstt1
    obtain ⟨hWFt', hbt', hstt'⟩ := ih fuel t1 t' hWFt1
      (fun o' ho' => hbt1 ▸ hin o' (List.mem_cons_of_mem o ho')) h
    refine ⟨hWFt', hbt'.trans hbt1, ?_⟩
    rw [hstt', hstt1, Multiset.add_cons, ← Multiset.cons_coe, Multiset.cons_add]

/-- The clamped closest point of an interval is at most as far from `c` as
any point of the interval. -/
lemma clamp_dist_le {lo hi c x : α} (h1 : lo ≤ x) (h2 : x ≤ hi) :
    (c - max lo (min c hi)) * (c - max lo (min c hi)) ≤ (c - x) * (c - x) := by
  rcases le_total c lo with hc | hc
  · have hch : c ≤ hi := le_trans hc (le_trans h1 h2)
    rw [min_eq_left hch, max_eq_left hc]
    nlinarith
  · rcases le_total hi c with hhc | hhc
    · rw [min_eq_right hhc, max_eq_right (le_trans h1 h2)]
      nlinarith
    · rw [min_eq_left hhc, max_eq_right hc]
      nlinarith [mul_self_nonneg (c - x)]

/-- If an object inside a node's bounds is within the query circle, the
node's rectangle intersects the circle (so the prune test cannot drop it). -/
lemma intersectsCircle_of_mem {b : Rect α} {x y cx cy radius : α}
    (hco : containsPoint b x y)
    (hdist : (x - cx) * (x - cx) + (y - cy) * (y - cy) ≤ radius * radius) :
    intersectsCircle b cx cy radius := by
  obtain ⟨h1, h2, h3, h4⟩ := hco
  have hx := clamp_dist_le (c := cx) h1 (le_of_lt h2)
  have hy := clamp_dist_le (c := cy) h3 (le_of_lt h4)
  show (cx - max b.x (min cx (b.x + b.width))) * (cx - max b.x (min cx (b.x + b.width))) +
      (cy - max b.y (min cy (b.y + b.height))) * (cy - max b.y (min cy (b.y + b.height))) ≤
      radius * radius
  nlinarith [hx, hy]

/-- Specification of `queryCircle` on a well-formed tree: it appends to
`found` exactly the stored objects whose centers lie within the circle. -/
lemma queryCircle_spec (cx cy radius : α) :
    ∀ (t : QuadTree α), WF t → ∀ found : List (PointObj α),
    (↑(queryCircle t cx cy radius found) : Multiset (PointObj α)) =
      ↑found + Multiset.filter
        (fun o => (o.x - cx) * (o.x - cx) + (o.y - cy) * (o.y - cy) ≤ radius * radius)
        (stored t) := by
  intro t
  induction t with
  | leaf b cap objs =>
    intro hWF found
    rw [queryCircle]
    by_cases hint : intersectsCircle (bounds (.leaf b cap objs)) cx cy radius
    · rw [if_neg (not_not_intro hint)]
      simp only [stored, objects, Multiset.filter_coe, ← Multiset.coe_add]
    · rw [if_pos hint]
      have hnone : Multiset.filter
          (fun o => (o.x - cx) * (o.x - cx) + (o.y - cy) * (o.y - cy) ≤ radius * radius)
          (stored (.leaf b cap objs)) = 0 := by
        rw [Multiset.filter_eq_nil]
        intro o ho hdist
        exact hint (intersectsCircle_of_mem
          (stored_mem_containsPoint _ hWF o ho) hdist)
      rw [hnone, add_zero]
  | node b cap objs ne nw se sw ihne ihnw ihse ihsw =>
    intro hWF found
    rw [queryCircle]
    by_cases hint : intersectsCircle (bounds (.node b cap objs ne nw se sw)) cx cy radius
    · rw [if_neg (not_not_intro hint)]
      rw [ihsw hWF.2.2.2.2.2, ihse hWF.2.2.2.2.1, ihnw hWF.2.2.2.1, ihne hWF.2.2.1]
      simp only [stored, objects, Multiset.filter_coe, ← Multiset.coe_add, Multiset.filter_add]
      abel
    · rw [if_pos hint]
      have hnone : Multiset.filter
          (fun o => (o.x - cx) * (o.x - cx) + (o.y - cy) * (o.y - cy) ≤ radius * radius)
          (stored (.node b cap objs ne nw se sw)) = 0 := by
        rw [Multiset.filter_eq_nil]
        intro o ho hdist
        exact hint (intersectsCircle_of_mem
          (stored_mem_containsPoint _ hWF o ho) hdist)
      rw [hnone, add_zero]

end QuadTree

/- ## Claims -/

set_option maxHeartbeats 1000000 in
/-- C1 (amended).  Whenever `computeOrbitFromStateVectors` succeeds, the
returned elements satisfy `a > 0` and `0 ≤ e ≤ 1`, and `e < 1` whenever the
specific angular momentum `r × v` is nonzero.  (The unamended claim `e < 1`
fails for radial trajectories, where `r × v = 0`; see the counterexample.) -/
theorem computeOrbit_closed_ellipse (r v : ℝ × ℝ) (o : OrbitalElements)
    (h : computeOrbitFromStateVectors r v = some o) :
    0 < o.a ∧ (0 ≤ o.e ∧ o.e ≤ 1) ∧ (cross r.1 r.2 v.1 v.2 ≠ 0 → o.e < 1) := by
  rw [computeOrbitFromStateVectors] at h
  set rx := r.1 with hrx
  set ry := r.2 with hry
  set vx := v.1 with hvx
  set vy := v.2 with hvy
  set S := magnitude rx ry with hSdef
  set vM := magnitude vx vy with hvMdef
  by_cases hE : vM * vM / 2 - MU / S ≥ 0
  · rw [if_pos hE] at h
    exact absurd h (by simp)
  rw [if_neg hE] at h
  push_neg at hE
  have hS0 : 0 ≤ S := magnitude_nonneg _ _
  have hvM2 : 0 ≤ vM * vM := mul_self_nonneg _
  have hSpos : 0 < S := by
    rcases eq_or_lt_of_le hS0 with hz | hp
    · exfalso
      rw [← hz, div_zero] at hE
      nlinarith
    · exact hp
  have hSsq : S * S = rx * rx + ry * ry := magnitude_mul_self _ _
  have hVsq : vM * vM = vx * vx + vy * vy := magnitude_mul_self _ _
  have hES : vM * vM * S < 2 * MU := by
    have h1 : vM * vM / 2 < MU / S := by linarith
    have h2 : vM * vM / 2 * S < MU := (lt_div_iff₀ hSpos).mp h1
    linarith
  -- name the components of the produced record
  set d := dot rx ry vx vy with hd
  set ex := ((vM * vM - MU / S) * rx - d * vx) / MU with hex
  set ey := ((vM * vM - MU / S) * ry - d * vy) / MU with hey
  have hA : MU * (S * ex) = (vM * vM * S - MU) * rx - d * S * vx := by
    rw [hex, MU]
    field_simp
    ring
  have hB : MU * (S * ey) = (vM * vM * S - MU) * ry - d * S * vy := by
    rw [hey, MU]
    field_simp
    ring
  have hid : (MU * S) ^ 2 -
      (((vM * vM * S - MU) * rx - d * S * vx) ^ 2 +
       ((vM * vM * S - MU) * ry - d * S * vy) ^ 2) =
      (2 * MU - vM * vM * S) * (S * (S * S * (vM * vM) - d * d)) := by
    rw [hd, dot, MU]
    linear_combination ((vM * vM * S - 1000) ^ 2) * hSsq +
      ((rx * vx + ry * vy) ^ 2 * S ^ 2) * hVsq
  have hcross2 : S * S * (vM * vM) - d * d = (rx * vy - ry * vx) ^ 2 := by
    rw [hd, dot, hSsq, hVsq]
    ring
  have hfac : 0 ≤ 2 * MU - vM * vM * S := by linarith
  have hsum_le : (MU * (S * ex)) ^ 2 + (MU * (S * ey)) ^ 2 ≤ (MU * S) ^ 2 := by
    rw [hA, hB]
    have h0 : 0 ≤ (2 * MU - vM * vM * S) * (S * (S * S * (vM * vM) - d * d)) := by
      apply mul_nonneg hfac
      apply mul_nonneg hS0
      rw [hcross2]
      exact sq_nonneg _
    linarith
  have hMUSpos : 0 < MU * S := by rw [MU]; linarith
  have hsqpos : 0 < (MU * S) ^ 2 := pow_pos hMUSpos 2
  have hexpand : (MU * (S * ex)) ^ 2 + (MU * (S * ey)) ^ 2 =
      (MU * S) ^ 2 * (ex * ex + ey * ey) := by ring
  have hee_le : ex * ex + ey * ey ≤ 1 := by
    have h1 : (MU * S) ^ 2 * (ex * ex + ey * ey) ≤ (MU * S) ^ 2 * 1 := by
      rw [← hexpand, mul_one]
      exact hsum_le
    exact (mul_le_mul_left hsqpos).mp h1
  -- extract the record
  rw [Option.some_inj] at h
  subst h
  refine ⟨?_, ⟨?_, ?_⟩, ?_⟩
  · exact div_pos_of_neg_of_neg (by rw [MU]; norm_num) (by linarith)
  · exact magnitude_nonneg _ _
  · show magnitude ex ey ≤ 1
    rw [magnitude]
    calc Real.sqrt (ex * ex + ey * ey) ≤ Real.sqrt 1 := Real.sqrt_le_sqrt hee_le
    _ = 1 := Real.sqrt_one
  · intro hcr
    show magnitude ex ey < 1
    have hcr2 : 0 < (rx * vy - ry * vx) ^ 2 := by
      have : rx * vy - ry * vx ≠ 0 := by
        rw [cross] at hcr
        exact hcr
      positivity
    have hfacpos : 0 < 2 * MU - vM * vM * S := by linarith
    have hsum_lt : (MU * (S * ex)) ^ 2 + (MU * (S * ey)) ^ 2 < (MU * S) ^ 2 := by
      rw [hA, hB]
      have h0 : 0 < (2 * MU - vM * vM * S) * (S * (S * S * (vM * vM) - d * d)) := by
        apply mul_pos hfacpos
        apply mul_pos hSpos
        rw [hcross2]
        exact hcr2
      linarith
    have hee_lt : ex * ex + ey * ey < 1 := by
      have h1 : (MU * S) ^ 2 * (ex * ex + ey * ey) < (MU * S) ^ 2 * 1 := by
        rw [← hexpand, mul_one]
        exact hsum_lt
      exact (mul_lt_mul_left hsqpos).mp h1
    rw [magnitude]
    calc Real.sqrt (ex * ex + ey * ey) < Real.sqrt 1 :=
          Real.sqrt_lt_sqrt (add_nonneg (mul_self_nonneg _) (mul_self_nonneg _)) hee_lt
    _ = 1 := Real.sqrt_one

/-- Counterexample to C1 as stated: for the radial state `r = (500, 0)`,
`v = (0, 0)` (zero angular momentum, energy `-2 < 0`) the function does not
fail, and the record it constructs has eccentricity exactly `1`, violating
`e < 1`. -/
theorem computeOrbit_e_one_counterexample :
    (computeOrbitFromStateVectors ((500:ℝ), 0) (0, 0)).map OrbitalElements.e = some 1 ∧
    ¬ ((1:ℝ) < 1) := by
  have hr : magnitude (500:ℝ) 0 = 500 := magnitude_of_sq _ _ _ (by norm_num) (by norm_num)
  have hv : magnitude (0:ℝ) 0 = 0 := magnitude_of_sq _ _ _ le_rfl (by norm_num)
  have he : magnitude (-1 : ℝ) 0 = 1 := magnitude_of_sq _ _ _ (by norm_num) (by norm_num)
  refine ⟨?_, by norm_num⟩
  rw [computeOrbitFromStateVectors]
  norm_num [hr, hv, MU, dot, he]

/-- Witness for C1: the state `r = (500, 0)`, `v = (0, 1)` (nonzero angular
momentum) produces the concrete closed ellipse `{a = 1000/3, e = 1/2,
omega = π, M0 = 0}`, and the amended invariant holds for it. -/
theorem computeOrbit_closed_ellipse_witness :
    computeOrbitFromStateVectors ((500:ℝ), 0) (0, 1) = some ⟨1000/3, 1/2, π, 0⟩ ∧
    (0 < (⟨1000/3, 1/2, π, 0⟩ : OrbitalElements).a ∧
      (0 ≤ (⟨1000/3, 1/2, π, 0⟩ : OrbitalElements).e ∧
        (⟨1000/3, 1/2, π, 0⟩ : OrbitalElements).e ≤ 1) ∧
      (cross (500:ℝ) 0 0 1 ≠ 0 → (⟨1000/3, 1/2, π, 0⟩ : OrbitalElements).e < 1)) := by
  have hr : magnitude (500:ℝ) 0 = 500 := magnitude_of_sq _ _ _ (by norm_num) (by norm_num)
  have hv : magnitude (0:ℝ) 1 = 1 := magnitude_of_sq _ _ _ (by norm_num) (by norm_num)
  have he : magnitude (-(1/2) : ℝ) 0 = 1/2 := magnitude_of_sq _ _ _ (by norm_num) (by norm_num)
  have harg : atan2 0 (-(1/2)) = π := by
    rw [atan2]
    have hmk : (⟨-(1/2), 0⟩ : ℂ) = ((-(1/2) : ℝ) : ℂ) := rfl
    rw [hmk]
    exact Complex.arg_ofReal_of_neg (by norm_num)
  have h0 : computeOrbitFromStateVectors ((500:ℝ), 0) (0, 1) = some ⟨1000/3, 1/2, π, 0⟩ := by
    rw [computeOrbitFromStateVectors]
    norm_num [hr, hv, MU, dot, he, harg, Real.arccos_neg_one, Real.tan_pi_div_two,
      Real.arctan_zero, Real.sin_zero, normalizeAngle_zero]
    intro hlt
    exact absurd hlt (by linarith [Real.pi_pos])
  exact ⟨h0, computeOrbit_closed_ellipse _ _ _ h0⟩

/-- C2.  `computeOrbitFromStateVectors` returns the "no orbit" sentinel
`none` if and only if the specific orbital energy `|v|²/2 - μ/|r|` is
nonnegative; it is a total function into `Option OrbitalElements`, so
failure is only ever signalled by the sentinel, never by an error. -/
theorem computeOrbit_none_iff_escape (r v : ℝ × ℝ) :
    computeOrbitFromStateVectors r v = none ↔ specificOrbitalEnergy r v ≥ 0 := by
  rw [computeOrbitFromStateVectors, specificOrbitalEnergy]
  split_ifs with h
  · simpa using h
  · simpa using h

/-- C3.  When the post-burn state vectors do not describe a closed orbit,
`applyDeltaV` returns the JS `false` and leaves every field of the asteroid
unchanged (the returned record is the input record itself). -/
theorem applyDeltaV_escape_unchanged (ast : Asteroid) (dvx dvy t : ℝ)
    (h : computeOrbitFromStateVectors (ast.x, ast.y) (ast.vx + dvx, ast.vy + dvy) = none) :
    ast.applyDeltaV dvx dvy t = (ast, false) := by
  rw [Asteroid.applyDeltaV]
  simp only [h]

/-- Witness for C3: an asteroid at rest-frame position `(500, 0)` with zero
velocity given a delta-v of `(0, 2)` reaches exactly the escape energy
(`ε = 0`), so `applyDeltaV` fails and changes nothing. -/
theorem applyDeltaV_escape_unchanged_witness :
    computeOrbitFromStateVectors
        ((⟨0, ⟨250, 0, 0, 0⟩, 1, 0, [], 500, 0, 0, 0, 0⟩ : Asteroid).x,
         (⟨0, ⟨250, 0, 0, 0⟩, 1, 0, [], 500, 0, 0, 0, 0⟩ : Asteroid).y)
        ((⟨0, ⟨250, 0, 0, 0⟩, 1, 0, [], 500, 0, 0, 0, 0⟩ : Asteroid).vx + 0,
         (⟨0, ⟨250, 0, 0, 0⟩, 1, 0, [], 500, 0, 0, 0, 0⟩ : Asteroid).vy + 2) = none ∧
    (⟨0, ⟨250, 0, 0, 0⟩, 1, 0, [], 500, 0, 0, 0, 0⟩ : Asteroid).applyDeltaV 0 2 0 =
      ((⟨0, ⟨250, 0, 0, 0⟩, 1, 0, [], 500, 0, 0, 0, 0⟩ : Asteroid), false) := by
  have hr : magnitude (500:ℝ) 0 = 500 := magnitude_of_sq _ _ _ (by norm_num) (by norm_num)
  have hv : magnitude ((0:ℝ) + 0) (0 + 2) = 2 := magnitude_of_sq _ _ _ (by norm_num) (by norm_num)
  have h : computeOrbitFromStateVectors ((500:ℝ), (0:ℝ)) ((0:ℝ) + 0, (0:ℝ) + 2) = none := by
    rw [computeOrbitFromStateVectors]
    simp only [hr, hv, MU]
    norm_num
  exact ⟨h, applyDeltaV_escape_unchanged _ 0 2 0 h⟩

/-- C4.  Whatever sequence of operations (`update`, `applyDeltaV`,
`setOrbit`) is run after either construction path (the random constructor
or `fromOrbit`), the cached `orbitPath` and `period` stay consistent with
the current orbit. -/
theorem cache_always_consistent :
    (∀ (id : ℕ) (aAU e omega M0 radius : ℝ) (color : ℕ) (ops : List BodyOp),
      cacheConsistent (runOps (Asteroid.create id aAU e omega M0 radius color) ops)) ∧
    (∀ (id : ℕ) (aAU e0 omega0 M00 radius0 : ℝ) (color0 : ℕ)
        (orbit : OrbitalElements) (radius : ℝ) (color : ℕ) (ops : List BodyOp),
      cacheConsistent
        (runOps (Asteroid.fromOrbit id aAU e0 omega0 M00 radius0 color0 orbit radius color)
          ops)) := by
  have step : ∀ (ast : Asteroid) (op : BodyOp),
      cacheConsistent ast → cacheConsistent (op.apply ast) := by
    intro ast op h
    cases op with
    | update t => exact ⟨h.1, h.2⟩
    | applyDeltaV dvx dvy t =>
      simp only [BodyOp.apply, Asteroid.applyDeltaV]
      cases hco : computeOrbitFromStateVectors (ast.x, ast.y) (ast.vx + dvx, ast.vy + dvy) with
      | none => exact h
      | some newOrbit => exact ⟨rfl, rfl⟩
    | setOrbit orbit => exact ⟨rfl, rfl⟩
  have run : ∀ (ops : List BodyOp) (ast : Asteroid),
      cacheConsistent ast → cacheConsistent (runOps ast ops) := by
    intro ops
    induction ops with
    | nil => intro ast h; exact h
    | cons op ops ih => intro ast h; exact ih _ (step ast op h)
  exact ⟨fun id aAU e omega M0 radius color ops => run ops _ ⟨rfl, rfl⟩,
         fun id aAU e0 omega0 M00 radius0 color0 orbit radius color ops =>
           run ops _ ⟨rfl, rfl⟩⟩

/-- C10.  Quadtree containment is half-open: an object whose position lies
on the right or bottom boundary of a node's bounds is outside, so `insert`
rejects it, returning the JS `false` with the tree unchanged (hence it is
never indexed and never returned by any query), while a point on the left
or top boundary (with the other coordinate in range) is inside. -/
theorem quadtree_halfopen {α : Type} [LinearOrderedField α]
    (t : QuadTree α) (obj : PointObj α) (fuel : ℕ)
    (h : obj.x = t.bounds.x + t.bounds.width ∨ obj.y = t.bounds.y + t.bounds.height) :
    ¬ QuadTree.containsPoint t.bounds obj.x obj.y ∧
    QuadTree.insert (fuel + 1) t obj = some (t, false) ∧
    ∀ p : PointObj α, p.x = t.bounds.x → p.x < t.bounds.x + t.bounds.width →
      t.bounds.y ≤ p.y → p.y < t.bounds.y + t.bounds.height →
      QuadTree.containsPoint t.bounds p.x p.y := by
  have hnc : ¬ QuadTree.containsPoint t.bounds obj.x obj.y := by
    rw [QuadTree.containsPoint]
    rcases h with h | h
    · rintro ⟨-, hlt, -, -⟩
      rw [h] at hlt
      exact lt_irrefl _ hlt
    · rintro ⟨-, -, -, hlt⟩
      rw [h] at hlt
      exact lt_irrefl _ hlt
  refine ⟨hnc, ?_, ?_⟩
  · simp only [QuadTree.insert, if_pos hnc]
  · intro p hpx h2 h3 h4
    exact ⟨le_of_eq hpx.symm, h2, h3, h4⟩

/-- Witness for C10 at `α = ℚ`: the point `(10, 5)` on the right edge of the
bounds `{x=0, y=0, width=10, height=10}` is rejected unchanged, while `(0, 5)`
on the left edge is inside. -/
theorem quadtree_halfopen_witness :
    ((⟨10, 5, 1⟩ : PointObj ℚ).x =
        (QuadTree.leaf ⟨0, 0, 10, 10⟩ 4 [] : QuadTree ℚ).bounds.x +
          (QuadTree.leaf ⟨0, 0, 10, 10⟩ 4 [] : QuadTree ℚ).bounds.width ∨
      (⟨10, 5, 1⟩ : PointObj ℚ).y =
        (QuadTree.leaf ⟨0, 0, 10, 10⟩ 4 [] : QuadTree ℚ).bounds.y +
          (QuadTree.leaf ⟨0, 0, 10, 10⟩ 4 [] : QuadTree ℚ).bounds.height) ∧
    (¬ QuadTree.containsPoint (QuadTree.leaf ⟨0, 0, 10, 10⟩ 4 [] : QuadTree ℚ).bounds 10 5 ∧
      QuadTree.insert 1 (QuadTree.leaf ⟨0, 0, 10, 10⟩ 4 [] : QuadTree ℚ) ⟨10, 5, 1⟩ =
        some (QuadTree.leaf ⟨0, 0, 10, 10⟩ 4 [], false) ∧
      ∀ p : PointObj ℚ, p.x = (QuadTree.leaf ⟨0, 0, 10, 10⟩ 4 [] : QuadTree ℚ).bounds.x →
        p.x < (QuadTree.leaf ⟨0, 0, 10, 10⟩ 4 [] : QuadTree ℚ).bounds.x +
          (QuadTree.leaf ⟨0, 0, 10, 10⟩ 4 [] : QuadTree ℚ).bounds.width →
        (QuadTree.leaf ⟨0, 0, 10, 10⟩ 4 [] : QuadTree ℚ).bounds.y ≤ p.y →
        p.y < (QuadTree.leaf ⟨0, 0, 10, 10⟩ 4 [] : QuadTree ℚ).bounds.y +
          (QuadTree.leaf ⟨0, 0, 10, 10⟩ 4 [] : QuadTree ℚ).bounds.height →
        QuadTree.containsPoint (QuadTree.leaf ⟨0, 0, 10, 10⟩ 4 [] : QuadTree ℚ).bounds p.x p.y) :=
  ⟨Or.inl (by norm_num [QuadTree.bounds]),
   quadtree_halfopen (QuadTree.leaf ⟨0, 0, 10, 10⟩ 4 []) ⟨10, 5, 1⟩ 0
     (Or.inl (by norm_num [QuadTree.bounds]))⟩

/-- C8.  Inserting `N` objects with pairwise distinct positions, all inside
the root bounds, into a fresh quadtree (with enough fuel for the JS
recursion to terminate, which the JS version presupposes), then querying a
circle that covers the entire bounds returns exactly those `N` objects, each
exactly once; querying a circle containing none of their positions returns
an empty result. -/
theorem quadtree_completeness {α : Type} [LinearOrderedField α]
    (b : Rect α) (cap fuel : ℕ) (objs : List (PointObj α)) (t' : QuadTree α)
    (cx cy rad cx2 cy2 rad2 : α)
    (hdist : objs.Pairwise (fun o1 o2 => (o1.x, o1.y) ≠ (o2.x, o2.y)))
    (hin : ∀ o ∈ objs, QuadTree.containsPoint b o.x o.y)
    (hins : QuadTree.insertAll fuel (QuadTree.leaf b cap []) objs = some t')
    (hcover : ∀ x y, QuadTree.containsPoint b x y →
      (x - cx) * (x - cx) + (y - cy) * (y - cy) ≤ rad * rad)
    (hempty : ∀ o ∈ objs,
      ¬ ((o.x - cx2) * (o.x - cx2) + (o.y - cy2) * (o.y - cy2) ≤ rad2 * rad2)) :
    (↑(QuadTree.queryCircle t' cx cy rad []) : Multiset (PointObj α)) = ↑objs ∧
    (QuadTree.queryCircle t' cx cy rad []).length = objs.length ∧
    (∀ o ∈ objs, (QuadTree.queryCircle t' cx cy rad []).count o = 1) ∧
    QuadTree.queryCircle t' cx2 cy2 rad2 [] = [] := by
  have hWF0 : QuadTree.WF (QuadTree.leaf b cap [] : QuadTree α) :=
    fun o ho => absurd ho (List.not_mem_nil o)
  obtain ⟨hWF', hb', hst'⟩ := QuadTree.insertAll_spec objs fuel _ t' hWF0 hin hins
  rw [QuadTree.stored] at hst'
  rw [Multiset.coe_nil, add_zero] at hst'
  have hnodup : objs.Nodup := by
    refine List.Pairwise.imp ?_ hdist
    intro o1 o2 hne heq
    exact hne (by rw [heq])
  have hq1 : (↑(QuadTree.queryCircle t' cx cy rad []) : Multiset (PointObj α)) = ↑objs := by
    rw [QuadTree.queryCircle_spec cx cy rad t' hWF' []]
    rw [Multiset.coe_nil, zero_add, hst']
    rw [Multiset.filter_eq_self]
    intro o ho
    rw [Multiset.mem_coe] at ho
    have hb'' : t'.bounds = b := hb'.trans rfl
    exact hcover o.x o.y (hb'' ▸ QuadTree.stored_mem_containsPoint t' hWF' o (hst' ▸ ho))
  refine ⟨hq1, ?_, ?_, ?_⟩
  · have := congrArg Multiset.card hq1
    simpa using this
  · intro o ho
    have hc := congrArg (Multiset.count o) hq1
    rw [Multiset.coe_count, Multiset.coe_count] at hc
    rw [hc]
    exact List.count_eq_one_of_mem hnodup ho
  · have hq2 : (↑(QuadTree.queryCircle t' cx2 cy2 rad2 []) : Multiset (PointObj α)) = 0 := by
      rw [QuadTree.queryCircle_spec cx2 cy2 rad2 t' hWF' []]
      rw [Multiset.coe_nil, zero_add, hst', Multiset.filter_eq_nil]
      intro o ho
      rw [Multiset.mem_coe] at ho
      exact hempty o ho
    exact (Multiset.coe_eq_zero _).mp hq2

/-- Witness for C8 at `α = ℚ`: three objects inserted into a fresh tree over
`{x=0, y=0, width=100, height=100}` with capacity 8; the circle of radius 100
about `(50, 50)` covers the bounds and returns all three exactly once, the
circle of radius 10 about `(-200, -200)` returns nothing. -/
theorem quadtree_completeness_witness :
    (([⟨10, 10, 1⟩, ⟨70, 60, 1⟩, ⟨30, 80, 1⟩] : List (PointObj ℚ)).Pairwise
        (fun o1 o2 => (o1.x, o1.y) ≠ (o2.x, o2.y)) ∧
      (∀ o ∈ ([⟨10, 10, 1⟩, ⟨70, 60, 1⟩, ⟨30, 80, 1⟩] : List (PointObj ℚ)),
        QuadTree.containsPoint ⟨0, 0, 100, 100⟩ o.x o.y) ∧
      QuadTree.insertAll 2 (QuadTree.leaf ⟨0, 0, 100, 100⟩ 8 [] : QuadTree ℚ)
          [⟨10, 10, 1⟩, ⟨70, 60, 1⟩, ⟨30, 80, 1⟩] =
        some (QuadTree.leaf ⟨0, 0, 100, 100⟩ 8 [⟨10, 10, 1⟩, ⟨70, 60, 1⟩, ⟨30, 80, 1⟩]) ∧
      (∀ x y : ℚ, QuadTree.containsPoint ⟨0, 0, 100, 100⟩ x y →
        (x - 50) * (x - 50) + (y - 50) * (y - 50) ≤ 100 * 100) ∧
      (∀ o ∈ ([⟨10, 10, 1⟩, ⟨70, 60, 1⟩, ⟨30, 80, 1⟩] : List (PointObj ℚ)),
        ¬ ((o.x - -200) * (o.x - -200) + (o.y - -200) * (o.y - -200) ≤ 10 * 10))) ∧
    ((↑(QuadTree.queryCircle
          (QuadTree.leaf ⟨0, 0, 100, 100⟩ 8
            [⟨10, 10, 1⟩, ⟨70, 60, 1⟩, ⟨30, 80, 1⟩] : QuadTree ℚ)
          50 50 100 []) : Multiset (PointObj ℚ)) =
        ↑([⟨10, 10, 1⟩, ⟨70, 60, 1⟩, ⟨30, 80, 1⟩] : List (PointObj ℚ)) ∧
      (QuadTree.queryCircle
          (QuadTree.leaf ⟨0, 0, 100, 100⟩ 8
            [⟨10, 10, 1⟩, ⟨70, 60, 1⟩, ⟨30, 80, 1⟩] : QuadTree ℚ)
          50 50 100 []).length =
        ([⟨10, 10, 1⟩, ⟨70, 60, 1⟩, ⟨30, 80, 1⟩] : List (PointObj ℚ)).length ∧
      (∀ o ∈ ([⟨10, 10, 1⟩, ⟨70, 60, 1⟩, ⟨30, 80, 1⟩] : List (PointObj ℚ)),
        (QuadTree.queryCircle
            (QuadTree.leaf ⟨0, 0, 100, 100⟩ 8
              [⟨10, 10, 1⟩, ⟨70, 60, 1⟩, ⟨30, 80, 1⟩] : QuadTree ℚ)
            50 50 100 []).count o = 1) ∧
      QuadTree.queryCircle
          (QuadTree.leaf ⟨0, 0, 100, 100⟩ 8
            [⟨10, 10, 1⟩, ⟨70, 60, 1⟩, ⟨30, 80, 1⟩] : QuadTree ℚ)
          (-200) (-200) 10 [] = []) := by
  have h1 : (([⟨10, 10, 1⟩, ⟨70, 60, 1⟩, ⟨30, 80, 1⟩] : List (PointObj ℚ)).Pairwise
      (fun o1 o2 => (o1.x, o1.y) ≠ (o2.x, o2.y))) := by
    norm_num [List.pairwise_cons, Prod.ext_iff]
  have h2 : ∀ o ∈ ([⟨10, 10, 1⟩, ⟨70, 60, 1⟩, ⟨30, 80, 1⟩] : List (PointObj ℚ)),
      QuadTree.containsPoint ⟨0, 0, 100, 100⟩ o.x o.y := by
    norm_num [QuadTree.containsPoint]
  have h3 : QuadTree.insertAll 2 (QuadTree.leaf ⟨0, 0, 100, 100⟩ 8 [] : QuadTree ℚ)
      [⟨10, 10, 1⟩, ⟨70, 60, 1⟩, ⟨30, 80, 1⟩] =
      some (QuadTree.leaf ⟨0, 0, 100, 100⟩ 8 [⟨10, 10, 1⟩, ⟨70, 60, 1⟩, ⟨30, 80, 1⟩]) := by
    norm_num [QuadTree.insertAll, QuadTree.insert, QuadTree.containsPoint, QuadTree.bounds]
  have h4 : ∀ x y : ℚ, QuadTree.containsPoint ⟨0, 0, 100, 100⟩ x y →
      (x - 50) * (x - 50) + (y - 50) * (y - 50) ≤ 100 * 100 := by
    rintro x y ⟨hx1, hx2, hy1, hy2⟩
    norm_num at hx1 hx2 hy1 hy2
    nlinarith
  have h5 : ∀ o ∈ ([⟨10, 10, 1⟩, ⟨70, 60, 1⟩, ⟨30, 80, 1⟩] : List (PointObj ℚ)),
      ¬ ((o.x - -200) * (o.x - -200) + (o.y - -200) * (o.y - -200) ≤ 10 * 10) := by
    norm_num
  exact ⟨⟨h1, h2, h3, h4, h5⟩,
    quadtree_completeness ⟨0, 0, 100, 100⟩ 8 2 _ _ 50 50 100 (-200) (-200) 10 h1 h2 h3 h4 h5⟩

/-- C9 (amended).  `findAsteroidAt` returns `none` exactly when no candidate
gathered by the index query (radius `tolerance + 50`) lies within its own
hit radius of the query point; and when it returns a body, that body is a
gathered candidate within its hit radius whose exact distance is minimal
among all qualifying candidates (nearest, not first-found).  (The unamended
claim quantified over all indexed bodies; a body outside the candidate
circle is never considered, see the counterexample.) -/
theorem findAsteroidAt_nearest_candidate (qt : QuadTree ℝ) (worldX worldY tolerance : ℝ) :
    (findAsteroidAt qt worldX worldY tolerance = none ↔
      ∀ c ∈ QuadTree.queryCircle qt worldX worldY (tolerance + 50) [],
        ¬ Real.sqrt ((worldX - c.x) * (worldX - c.x) + (worldY - c.y) * (worldY - c.y)) ≤
          c.radius + tolerance) ∧
    (∀ b, findAsteroidAt qt worldX worldY tolerance = some b →
      b ∈ QuadTree.queryCircle qt worldX worldY (tolerance + 50) [] ∧
      Real.sqrt ((worldX - b.x) * (worldX - b.x) + (worldY - b.y) * (worldY - b.y)) ≤
        b.radius + tolerance ∧
      ∀ c ∈ QuadTree.queryCircle qt worldX worldY (tolerance + 50) [],
        Real.sqrt ((worldX - c.x) * (worldX - c.x) + (worldY - c.y) * (worldY - c.y)) ≤
          c.radius + tolerance →
        Real.sqrt ((worldX - b.x) * (worldX - b.x) + (worldY - b.y) * (worldY - b.y)) ≤
          Real.sqrt ((worldX - c.x) * (worldX - c.x) + (worldY - c.y) * (worldY - c.y))) := by
  obtain ⟨h1, h2⟩ := findAsteroid_foldl_spec worldX worldY tolerance
    (QuadTree.queryCircle qt worldX worldY (tolerance + 50) []) none
    (fun b d h0 => absurd h0 Option.noConfusion)
  have hm : findAsteroidAt qt worldX worldY tolerance =
      ((QuadTree.queryCircle qt worldX worldY (tolerance + 50) []).foldl
        (fun acc asteroid =>
          let dx := worldX - asteroid.x
          let dy := worldY - asteroid.y
          let dist := Real.sqrt (dx * dx + dy * dy)
          let hitRadius := asteroid.radius + tolerance
          match acc with
          | none => if dist ≤ hitRadius then some (asteroid, dist) else none
          | some (b, closestDist) =>
              if dist ≤ hitRadius ∧ dist < closestDist then some (asteroid, dist)
              else some (b, closestDist)) none).map Prod.fst := rfl
  constructor
  · rw [hm, Option.map_eq_none', h1]
    exact ⟨fun h => h.2, fun h => ⟨rfl, h⟩⟩
  · intro b hb
    rw [hm, Option.map_eq_some'] at hb
    obtain ⟨⟨b', d⟩, hfold, hfst⟩ := hb
    have hb' : b' = b := hfst
    subst hb'
    obtain ⟨hd, hq, hmem, hmin, -⟩ := h2 b' d hfold
    rcases hmem with hmm | hmm
    · rw [hd] at hq
      exact ⟨hmm, hq, hmin⟩
    · exact absurd hmm Option.noConfusion

/-- Counterexample to C9 as stated: a single indexed body at `(560, 500)`
with hit radius `100` contains the query point `(500, 500)` (distance 60),
yet `findAsteroidAt` with tolerance 0 returns no body, because the candidate
query at radius `0 + 50` does not reach the body's center. -/
theorem findAsteroidAt_misses_large_body :
    Real.sqrt ((500 - (560:ℝ)) * (500 - 560) + (500 - (500:ℝ)) * (500 - 500)) ≤ 100 + 0 ∧
    findAsteroidAt (QuadTree.leaf ⟨0, 0, 1000, 1000⟩ 8 [⟨560, 500, 100⟩]) 500 500 0 = none := by
  constructor
  · have h36 : ((500 - (560:ℝ)) * (500 - 560) + (500 - (500:ℝ)) * (500 - 500)) = 3600 := by
      norm_num
    rw [h36, show (3600:ℝ) = 60 ^ 2 by norm_num, Real.sqrt_sq (by norm_num)]
    norm_num
  · have hd : decide (((560:ℝ) - 500) * (560 - 500) + ((500:ℝ) - 500) * (500 - 500) ≤
        (0 + 50) * (0 + 50)) = false := by
      rw [decide_eq_false_iff_not]
      norm_num
    have hint : QuadTree.intersectsCircle
        (QuadTree.bounds (QuadTree.leaf ⟨0, 0, 1000, 1000⟩ 8 [⟨560, 500, 100⟩] : QuadTree ℝ))
        500 500 (0 + 50) := by
      simp only [QuadTree.bounds, QuadTree.intersectsCircle]
      rw [min_eq_left (by norm_num : (500:ℝ) ≤ 0 + 1000),
          max_eq_right (by norm_num : (0:ℝ) ≤ 500)]
      norm_num
    rw [findAsteroidAt, QuadTree.queryCircle, if_neg (not_not_intro hint)]
    simp only [QuadTree.objects, List.filter_cons, hd, Bool.false_eq_true, if_false,
      List.filter_nil, List.nil_append, List.foldl_nil, Option.map_none']

set_option maxHeartbeats 1600000 in
/-- C5 (amended).  For every valid elements record with `a > 0` and
`0 < e < 1` (and `omega ∈ [0, 2π)` per the data model) and every time `t`,
converting to a state vector via `getPositionAtTime`/`getVelocityAtTime` and
back via `computeOrbitFromStateVectors` succeeds and reproduces `a`, `e` and
`omega` exactly (exactly, in the real-number model of the JS floats), with a
recovered `M0` in `[0, 2π)` — the epoch-shifted phase; the ellipse itself is
determined by `(a, e, omega)`.  (The unamended claim also covered `e = 0`,
where the code's recovered `omega` is the degenerate `atan2(0,0) = 0` rather
than the input `omega`; see the counterexample.) -/
theorem elements_roundtrip (a e ω M0 t : ℝ)
    (ha : 0 < a) (he0 : 0 < e) (he1 : e < 1) (hω0 : 0 ≤ ω) (hω2 : ω < 2 * π) :
    ∃ M0' : ℝ,
      computeOrbitFromStateVectors (getPositionAtTime ⟨a, e, ω, M0⟩ t)
        (getVelocityAtTime ⟨a, e, ω, M0⟩ t) = some ⟨a, e, ω, M0'⟩ ∧
      M0' ∈ Set.Ico 0 (2 * π) := by
  have hMU : (0 : ℝ) < MU := by rw [MU]; norm_num
  simp only [getPositionAtTime, getVelocityAtTime, getPositionFromTrueAnomaly,
    velocityFromTrueAnomaly]
  set θ := trueAnomalyFromEccentric
    (solveKeplerEquation (meanAnomalyAtTime ⟨a, e, ω, M0⟩ t) e) e with hθdef
  set c := Real.cos θ with hcdef
  set s := Real.sin θ with hsdef
  set cw := Real.cos ω with hcwdef
  set sw := Real.sin ω with hswdef
  set r := a * (1 - e * e) / (1 + e * c) with hrdef
  set h := Real.sqrt (MU * (a * (1 - e * e))) with hhdef
  set vr := MU / h * e * s with hvrdef
  set vt := MU / h * (1 + e * c) with hvtdef
  set vxO := vr * c - vt * s with hvxOdef
  set vyO := vr * s + vt * c with hvyOdef
  set px := r * c * cw - r * s * sw with hpxdef
  set py := r * c * sw + r * s * cw with hpydef
  set vx1 := vxO * cw - vyO * sw with hvx1def
  set vy1 := vxO * sw + vyO * cw with hvy1def
  simp only [computeOrbitFromStateVectors]
  -- scalar facts
  have hP1 : s * s + c * c = 1 := by
    have hx := Real.sin_sq_add_cos_sq θ
    rw [pow_two, pow_two] at hx
    rw [hsdef, hcdef]
    exact hx
  have hP2 : sw * sw + cw * cw = 1 := by
    have hx := Real.sin_sq_add_cos_sq ω
    rw [pow_two, pow_two] at hx
    rw [hswdef, hcwdef]
    exact hx
  have hs2 : s * s = 1 - c * c := by linarith
  have hkpos : 0 < 1 + e * c := by
    have hcge : -1 ≤ c := by rw [hcdef]; exact Real.neg_one_le_cos θ
    nlinarith
  have h1e : 0 < 1 - e * e := by nlinarith
  have hppos : 0 < a * (1 - e * e) := mul_pos ha h1e
  have hrpos : 0 < r := by rw [hrdef]; exact div_pos hppos hkpos
  have hhsq : h * h = MU * (a * (1 - e * e)) := by
    rw [hhdef]
    exact Real.mul_self_sqrt (le_of_lt (mul_pos hMU hppos))
  have hhpos : 0 < h := by rw [hhdef]; exact Real.sqrt_pos.mpr (mul_pos hMU hppos)
  have hu2 : MU / h * (MU / h) = MU / (a * (1 - e * e)) := by
    rw [div_mul_div_comm, hhsq, mul_div_mul_left _ _ hMU.ne']
  -- magnitudes
  have hpxy : px * px + py * py = r * r := by
    rw [hpxdef, hpydef]
    linear_combination (r * r * (s * s + c * c)) * hP2 + (r * r) * hP1
  have hrM : magnitude px py = r := by
    rw [magnitude, hpxy, Real.sqrt_mul_self (le_of_lt hrpos)]
  have hvxy : vx1 * vx1 + vy1 * vy1 = vr * vr + vt * vt := by
    rw [hvx1def, hvy1def, hvxOdef, hvyOdef]
    linear_combination
      (((vr * c - vt * s) * (vr * c - vt * s) + (vr * s + vt * c) * (vr * s + vt * c))) * hP2 +
      (vr * vr + vt * vt) * hP1
  have hvM : magnitude vx1 vy1 * magnitude vx1 vy1 = vr * vr + vt * vt := by
    rw [magnitude_mul_self, hvxy]
  -- energy
  have hsum : vr * vr + vt * vt =
      MU / (a * (1 - e * e)) * (e * e + 1 + 2 * (e * c)) := by
    calc vr * vr + vt * vt
        = MU / h * (MU / h) * (e * e * (s * s) + (1 + e * c) * (1 + e * c)) := by
          rw [hvrdef, hvtdef]; ring
      _ = MU / (a * (1 - e * e)) * (e * e * (s * s) + (1 + e * c) * (1 + e * c)) := by
          rw [hu2]
      _ = MU / (a * (1 - e * e)) * (e * e + 1 + 2 * (e * c)) := by
          rw [hs2]; ring
  have hE : magnitude vx1 vy1 * magnitude vx1 vy1 / 2 - MU / magnitude px py =
      -MU / (2 * a) := by
    rw [hvM, hrM, hsum, hrdef, div_div_eq_mul_div]
    field_simp
    ring
  have hEneg : ¬ (magnitude vx1 vy1 * magnitude vx1 vy1 / 2 - MU / magnitude px py ≥ 0) := by
    rw [hE]
    push_neg
    exact div_neg_of_neg_of_pos (by linarith) (by linarith)
  -- eccentricity vector
  have hdot : dot px py vx1 vy1 = r * vr := by
    rw [dot, hpxdef, hpydef, hvx1def, hvy1def]
    linear_combination
      ((r * c) * vxO + (r * s) * vyO) * hP2 +
      (by rw [hvxOdef, hvyOdef]; linear_combination (r * vr) * hP1 :
        (r * c) * vxO + (r * s) * vyO = r * vr)
  have hterm1 : magnitude vx1 vy1 * magnitude vx1 vy1 - MU / magnitude px py =
      MU * (e * (e + c)) / (a * (1 - e * e)) := by
    rw [hvM, hrM, hsum, hrdef, div_div_eq_mul_div]
    field_simp
    ring
  have hstep1 : r * vr * vxO =
      MU / (a * (1 - e * e)) * (r * (e * e * (s * s) * c - e * (s * s) * (1 + e * c))) := by
    rw [hvxOdef, hvrdef, hvtdef]
    calc r * (MU / h * e * s) * (MU / h * e * s * c - MU / h * (1 + e * c) * s)
        = MU / h * (MU / h) *
            (r * (e * e * (s * s) * c - e * (s * s) * (1 + e * c))) := by ring
      _ = MU / (a * (1 - e * e)) *
            (r * (e * e * (s * s) * c - e * (s * s) * (1 + e * c))) := by rw [hu2]
  have hstep2 : r * vr * vyO =
      MU / (a * (1 - e * e)) * (r * (e * e * (s * s) * s + e * s * (1 + e * c) * c)) := by
    rw [hvyOdef, hvrdef, hvtdef]
    calc r * (MU / h * e * s) * (MU / h * e * s * s + MU / h * (1 + e * c) * c)
        = MU / h * (MU / h) *
            (r * (e * e * (s * s) * s + e * s * (1 + e * c) * c)) := by ring
      _ = MU / (a * (1 - e * e)) *
            (r * (e * e * (s * s) * s + e * s * (1 + e * c) * c)) := by rw [hu2]
  have hG1 : MU * (e * (e + c)) / (a * (1 - e * e)) * (r * c) - r * vr * vxO = MU * e := by
    rw [hstep1, hs2, hrdef]
    field_simp
    ring
  have hG2 : MU * (e * (e + c)) / (a * (1 - e * e)) * (r * s) - r * vr * vyO = 0 := by
    rw [hstep2, hs2, hrdef]
    field_simp
    ring
  have hex : ((magnitude vx1 vy1 * magnitude vx1 vy1 - MU / magnitude px py) * px -
      dot px py vx1 vy1 * vx1) / MU = e * cw := by
    rw [hterm1, hdot, hpxdef, hvx1def, div_eq_iff hMU.ne']
    linear_combination cw * hG1 - sw * hG2
  have hey : ((magnitude vx1 vy1 * magnitude vx1 vy1 - MU / magnitude px py) * py -
      dot px py vx1 vy1 * vy1) / MU = e * sw := by
    rw [hterm1, hdot, hpydef, hvy1def, div_eq_iff hMU.ne']
    linear_combination sw * hG1 + cw * hG2
  have hmag_e : magnitude (e * cw) (e * sw) = e := by
    have hx : (e * cw) * (e * cw) + (e * sw) * (e * sw) = e * e := by
      linear_combination (e * e) * hP2
    rw [magnitude, hx, Real.sqrt_mul_self he0.le]
  have homega : (if atan2 (e * sw) (e * cw) < 0 then atan2 (e * sw) (e * cw) + 2 * π
      else atan2 (e * sw) (e * cw)) = ω := by
    rw [atan2, arg_mk_smul_pos e cw sw he0, hcwdef, hswdef]
    rcases le_or_lt ω π with hωπ | hωπ
    · rw [arg_cos_sin_mk ω (by linarith [Real.pi_pos]) hωπ]
      rw [if_neg (not_lt.mpr hω0)]
    · rw [show Real.cos ω = Real.cos (ω - 2 * π) from (Real.cos_sub_two_pi ω).symm,
          show Real.sin ω = Real.sin (ω - 2 * π) from (Real.sin_sub_two_pi ω).symm,
          arg_cos_sin_mk (ω - 2 * π) (by linarith) (by linarith [Real.pi_pos])]
      rw [if_pos (by linarith [Real.pi_pos])]
      ring
  -- assemble
  have haa : -MU / (2 * (-MU / (2 * a))) = a := by
    rw [MU]
    field_simp
    ring
  rw [if_neg hEneg, hex, hey, hmag_e, hE, haa, homega]
  exact ⟨_, rfl, normalizeAngle_mem _⟩

/-- Witness for C5: the concrete ellipse `{a = 500, e = 1/2, omega = 0,
M0 = 0}` at `t = 0` satisfies the hypotheses, and the round trip reproduces
`a`, `e`, `omega`. -/
theorem elements_roundtrip_witness :
    ((0:ℝ) < 500 ∧ (0:ℝ) < 1/2 ∧ (1/2:ℝ) < 1 ∧ (0:ℝ) ≤ 0 ∧ (0:ℝ) < 2 * π) ∧
    ∃ M0' : ℝ,
      computeOrbitFromStateVectors (getPositionAtTime ⟨500, 1/2, 0, 0⟩ 0)
        (getVelocityAtTime ⟨500, 1/2, 0, 0⟩ 0) = some ⟨500, 1/2, 0, M0'⟩ ∧
      M0' ∈ Set.Ico 0 (2 * π) :=
  ⟨⟨by norm_num, by norm_num, by norm_num, le_refl 0, by linarith [Real.pi_pos]⟩,
   elements_roundtrip 500 (1/2) 0 0 0 (by norm_num) (by norm_num) (by norm_num) (le_refl 0)
     (by linarith [Real.pi_pos])⟩

/-- Counterexample to C5 as stated: the valid circular record
`{a = 500, e = 0, omega = π, M0 = 0}` (with `e = 0 ∈ [0, 1)`) round-trips at
`t = 0` to a record whose `omega` is `atan2(0, 0) = 0`, not the original `π`
— the recovered elements are not the same record (only the same circle). -/
theorem elements_roundtrip_omega_counterexample :
    (computeOrbitFromStateVectors (getPositionAtTime ⟨500, 0, π, 0⟩ 0)
      (getVelocityAtTime ⟨500, 0, π, 0⟩ 0)).map OrbitalElements.omega = some 0 ∧
    (⟨(500:ℝ), 0, π, 0⟩ : OrbitalElements).omega ≠ 0 := by
  have hn0 : meanAnomalyAtTime ⟨500, 0, π, 0⟩ 0 = 0 := by
    simp [meanAnomalyAtTime, normalizeAngle_zero]
  have hkep : solveKeplerEquation 0 0 = 0 := by
    rw [solveKeplerEquation]
    simp only [normalizeAngle_zero]
    rw [if_neg (by norm_num : ¬((0:ℝ) > 0.8)), KEPLER_MAX_ITERATIONS]
    exact keplerLoop_exact 0 0 0 49 (by simp)
  have h10 : (⟨(1:ℝ), (0:ℝ)⟩ : ℂ) = (1 : ℂ) := rfl
  have htrue : trueAnomalyFromEccentric 0 0 = 0 := by
    norm_num [trueAnomalyFromEccentric, atan2, Real.sin_zero, Real.cos_zero, Real.sqrt_one,
      h10, Complex.arg_one]
  have hposv : getPositionAtTime ⟨500, 0, π, 0⟩ 0 = (-500, 0) := by
    simp only [getPositionAtTime]
    rw [hn0, hkep, htrue]
    norm_num [getPositionFromTrueAnomaly, Real.cos_pi, Real.sin_pi, Real.cos_zero,
      Real.sin_zero, Prod.ext_iff]
  have hvelv : getVelocityAtTime ⟨500, 0, π, 0⟩ 0 = (0, -(1000 / Real.sqrt 500000)) := by
    simp only [getVelocityAtTime]
    rw [hn0, hkep, htrue]
    norm_num [velocityFromTrueAnomaly, MU, Real.cos_pi, Real.sin_pi, Real.cos_zero,
      Real.sin_zero, Prod.ext_iff]
  have h5 : Real.sqrt 500000 * Real.sqrt 500000 = 500000 :=
    Real.mul_self_sqrt (by norm_num)
  have hrm : magnitude (-500 : ℝ) 0 = 500 :=
    magnitude_of_sq _ _ _ (by norm_num) (by norm_num)
  have hvm : magnitude (0:ℝ) (-(1000 / Real.sqrt 500000)) = Real.sqrt 2 := by
    rw [magnitude]
    have hx : (0:ℝ) * 0 + -(1000 / Real.sqrt 500000) * -(1000 / Real.sqrt 500000) = 2 := by
      rw [neg_mul_neg, div_mul_div_comm, h5]
      norm_num
    rw [hx]
  have hvm2 : Real.sqrt 2 * Real.sqrt 2 = 2 := Real.mul_self_sqrt (by norm_num)
  have h00 : (⟨(0:ℝ), (0:ℝ)⟩ : ℂ) = (0 : ℂ) := rfl
  constructor
  · rw [hposv, hvelv, computeOrbitFromStateVectors]
    norm_num [hrm, hvm, hvm2, MU, dot, atan2, h00, Complex.arg_zero]
  · exact Real.pi_ne_zero

/-- C7.  `generateOrbitPath` returns `numPoints + 1` samples and, for any
`numPoints ≥ 1`, its first sample (true anomaly `0`) and its last sample
(true anomaly `2π`) coincide exactly. -/
theorem generateOrbitPath_closes (orbit : OrbitalElements) (numPoints : ℕ)
    (h : 1 ≤ numPoints) :
    (generateOrbitPath orbit numPoints).length = numPoints + 1 ∧
    (generateOrbitPath orbit numPoints).head? =
      some (getPositionFromTrueAnomaly orbit 0) ∧
    (generateOrbitPath orbit numPoints).getLast? =
      some (getPositionFromTrueAnomaly orbit 0) := by
  have hn : (numPoints : ℝ) ≠ 0 := Nat.cast_ne_zero.mpr (by omega)
  have hlen : (generateOrbitPath orbit numPoints).length = numPoints + 1 := by
    rw [generateOrbitPath, List.length_map, List.length_range]
  refine ⟨hlen, ?_, ?_⟩
  · rw [List.head?_eq_getElem?, generateOrbitPath]
    rw [List.getElem?_map, List.getElem?_range (by omega)]
    simp
  · rw [List.getLast?_eq_getElem?, hlen, generateOrbitPath]
    simp only [Nat.add_sub_cancel]
    rw [List.getElem?_map, List.getElem?_range (by omega)]
    have hdiv : ((numPoints : ℝ) / (numPoints : ℝ)) = 1 := div_self hn
    have hpos : getPositionFromTrueAnomaly orbit ((numPoints : ℝ) / (numPoints : ℝ) * (2 * π)) =
        getPositionFromTrueAnomaly orbit 0 := by
      rw [hdiv, one_mul, getPositionFromTrueAnomaly, getPositionFromTrueAnomaly]
      simp [Real.cos_two_pi, Real.sin_two_pi]
    simp [hpos]

/-- Witness for C7: a concrete circular orbit sampled with `numPoints = 1`. -/
theorem generateOrbitPath_closes_witness :
    1 ≤ 1 ∧
    ((generateOrbitPath ⟨500, 0, 0, 0⟩ 1).length = 1 + 1 ∧
    (generateOrbitPath ⟨500, 0, 0, 0⟩ 1).head? =
      some (getPositionFromTrueAnomaly ⟨500, 0, 0, 0⟩ 0) ∧
    (generateOrbitPath ⟨500, 0, 0, 0⟩ 1).getLast? =
      some (getPositionFromTrueAnomaly ⟨500, 0, 0, 0⟩ 0)) :=
  ⟨le_refl 1, generateOrbitPath_closes ⟨500, 0, 0, 0⟩ 1 (le_refl 1)⟩

end Orbits
